import Mathlib

/-!
Shallow embedding of the SquashFS reader (vimagination.zapto.org/squashfs)
in Lean 4, together with theorems checking the natural-language
specification against the code.

Conventions of the embedding:
* Go byte slices become `List Nat` (each element a byte value).
* Machine integers become `Nat` (with explicit `% 2^w` where Go's
  fixed-width wrap-around or shift truncation matters).
* Fallible Go functions return `Except GoErr α`.
* `byteio.StickyLittleEndianReader` becomes the `SLE` state record with a
  sticky error flag; each read returns the value and the updated reader.
* External decompressors (`Compressor.decompress`, i.e. `zlib.NewReader`
  followed by reading) are a parameter `gz : List Nat → Except GoErr (List Nat)`.
-/

deriving instance DecidableEq for Except

namespace Sqfs

/-- Error kinds of the reader, mirroring the `errors.go` variables, the
`io` package sentinel errors and the `io/fs` sentinel errors used by the
source. -/
inductive GoErr where
  | invalidCompressor
  | invalidCompressionLevel
  | invalidWindowSize
  | invalidCompressionStrategies
  | noCompressorOptions
  | invalidCompressionAlgorithm
  | invalidDictionarySize
  | invalidFilters
  | invalidCompressorVersion
  | invalidCompressorFlags
  | unsupportedCompressor
  | invalidPointer
  | invalidBlockHeader
  | unsupportedSeek
  | invalidMagicNumber
  | invalidBlockSize
  | invalidVersion
  | eof
  | unexpectedEOF
  | errInvalid
  | errNotExist
  | errClosed
  | errPermission
  | outOfFuel
deriving Repr, DecidableEq

/-- State of a `byteio.StickyLittleEndianReader` over an in-memory buffer:
the remaining bytes and the sticky error flag.  After an error every read
returns 0, as in byteio. -/
structure SLE where
  data : List Nat
  err : Bool
deriving Repr, DecidableEq

/-- Read one byte (byteio `ReadUint8`). -/
def SLE.readUint8 (s : SLE) : Nat × SLE :=
  if s.err then (0, s) else
  match s.data with
  | b0 :: rest => (b0, { s with data := rest })
  | _ => (0, { data := [], err := true })

/-- Read a little-endian uint16 (byteio `ReadUint16`). -/
def SLE.readUint16 (s : SLE) : Nat × SLE :=
  if s.err then (0, s) else
  match s.data with
  | b0 :: b1 :: rest => (b0 + 256 * b1, { s with data := rest })
  | _ => (0, { data := [], err := true })

/-- Read a little-endian uint32 (byteio `ReadUint32`). -/
def SLE.readUint32 (s : SLE) : Nat × SLE :=
  if s.err then (0, s) else
  match s.data with
  | b0 :: b1 :: b2 :: b3 :: rest =>
      (b0 + 256 * (b1 + 256 * (b2 + 256 * b3)), { s with data := rest })
  | _ => (0, { data := [], err := true })

/-- Read a little-endian uint64 (byteio `ReadUint64`). -/
def SLE.readUint64 (s : SLE) : Nat × SLE :=
  if s.err then (0, s) else
  match s.data with
  | b0 :: b1 :: b2 :: b3 :: b4 :: b5 :: b6 :: b7 :: rest =>
      (b0 + 256 * (b1 + 256 * (b2 + 256 * (b3 + 256 * (b4 + 256 * (b5 + 256 * (b6 + 256 * b7)))))),
       { s with data := rest })
  | _ => (0, { data := [], err := true })

/-- Little-endian encoding helpers (the inverse direction, used to build
concrete test images in the theorems below). -/
def le16 (n : Nat) : List Nat := [n % 256, n / 256 % 256]

/-- Little-endian 4-byte encoding. -/
def le32 (n : Nat) : List Nat :=
  [n % 256, n / 256 % 256, n / 2 ^ 16 % 256, n / 2 ^ 24 % 256]

/-- Little-endian 8-byte encoding. -/
def le64 (n : Nat) : List Nat := le32 (n % 2 ^ 32) ++ le32 (n / 2 ^ 32 % 2 ^ 32)

/-- Compressor ids from `compressor.go`. -/
def compressorGZIP : Nat := 1

/-- LZMA compressor id. -/
def compressorLZMA : Nat := 2

/-- LZO compressor id. -/
def compressorLZO : Nat := 3

/-- XZ compressor id. -/
def compressorXZ : Nat := 4

/-- LZ4 compressor id. -/
def compressorLZ4 : Nat := 5

/-- ZSTD compressor id. -/
def compressorZSTD : Nat := 6

/-- Parsed per-compressor option records (`GZipOptions`, `LZOOptions`,
`XZOptions`, `LZ4Options`, `ZStdOptions` of `compressor.go`; LZMA has no
record and `lzmaNone` stands for the absent value). -/
inductive CompressorOptions where
  | gzip (compressionLevel window strategies : Nat)
  | lzmaNone
  | lzo (algorithm compressionLevel : Nat)
  | xz (dictionarySize filters : Nat)
  | lz4 (version flags : Nat)
  | zstd (compressionLevel : Nat)
deriving Repr, DecidableEq

/-- Maximum gzip strategy value accepted by `parseGZipOptions`
(`const maxStrategy = 21` in `compressor.go`). -/
def maxStrategy : Nat := 21

/-- Embedding of `parseGZipOptions` (compressor.go): level must be in
[1, zlib.BestCompression = 9], window size in [8, 15], strategies at most
`maxStrategy`. -/
def parseGZipOptions (ler : SLE) : Except GoErr CompressorOptions :=
  let (compressionlevel, ler) := ler.readUint32
  if compressionlevel = 0 ∨ compressionlevel > 9 then .error .invalidCompressionLevel
  else
    let (windowsize, ler) := ler.readUint16
    if windowsize < 8 ∨ windowsize > 15 then .error .invalidWindowSize
    else
      let (strategies, _) := ler.readUint16
      if strategies > maxStrategy then .error .invalidCompressionStrategies
      else .ok (.gzip compressionlevel windowsize strategies)

/-- Embedding of `defaultGzipOptions` (level 9 = zlib.BestCompression,
window 15, strategies zero-valued). -/
def defaultGzipOptions : CompressorOptions := .gzip 9 15 0

/-- Embedding of `parseLZOOptions`. -/
def parseLZOOptions (ler : SLE) : Except GoErr CompressorOptions :=
  let (algorithm, ler) := ler.readUint32
  if algorithm > 4 then .error .invalidCompressionAlgorithm
  else
    let (compressionlevel, _) := ler.readUint32
    if compressionlevel > 9 ∨ (algorithm ≠ 4 ∧ compressionlevel ≠ 0) then
      .error .invalidCompressionLevel
    else .ok (.lzo algorithm compressionlevel)

/-- Embedding of `defaultLZOOptions`. -/
def defaultLZOOptions : CompressorOptions := .lzo 4 8

/-- Number of binary digits of a 32-bit value (0 for 0). -/
def bitLen32 (n : Nat) : Nat := if n = 0 then 0 else Nat.log2 n + 1

/-- Embedding of Go `math/bits.LeadingZeros32`. -/
def leadingZeros32 (n : Nat) : Nat := 32 - bitLen32 n

/-- Fuelled helper for `trailingZeros32`. -/
def trailingZerosAux : Nat → Nat → Nat
  | 0, _ => 0
  | fuel + 1, n => if n % 2 = 1 then 0 else 1 + trailingZerosAux fuel (n / 2)

/-- Embedding of Go `math/bits.TrailingZeros32` (32 for input 0). -/
def trailingZeros32 (n : Nat) : Nat := trailingZerosAux 32 n

/-- Embedding of `parseXZOptions`: the dictionary size must be at least
8192 and its set bits must span at most two adjacent positions; the Go
test `32 - trail - lead > 2` is evaluated over `Int` as Go does over
`int`. -/
def parseXZOptions (ler : SLE) : Except GoErr CompressorOptions :=
  let (dictionarysize, ler) := ler.readUint32
  if dictionarysize < 8192 ∨
      ((32 : Int) - trailingZeros32 dictionarysize - leadingZeros32 dictionarysize > 2) then
    .error .invalidDictionarySize
  else
    let (filters, _) := ler.readUint32
    if filters > 63 then .error .invalidFilters
    else .ok (.xz dictionarysize filters)

/-- Embedding of `defaultXZOptions`. -/
def defaultXZOptions : CompressorOptions := .xz 8192 0

/-- Embedding of `parseLZ4Options`: the version field must equal 1 and the
flags field must be at most 1. -/
def parseLZ4Options (ler : SLE) : Except GoErr CompressorOptions :=
  let (version, ler) := ler.readUint32
  if version ≠ 1 then .error .invalidCompressorVersion
  else
    let (flags, _) := ler.readUint32
    if flags > 1 then .error .invalidCompressorFlags
    else .ok (.lz4 1 flags)

/-- Embedding of `parseZStdOptions`: level in [1, 22]. -/
def parseZStdOptions (ler : SLE) : Except GoErr CompressorOptions :=
  let (compressionlevel, _) := ler.readUint32
  if compressionlevel = 0 ∨ compressionlevel > 22 then .error .invalidCompressionLevel
  else .ok (.zstd compressionlevel)

/-- Embedding of `defaultZStdOptions` (zlib.BestCompression = 9 in the
source). -/
def defaultZStdOptions : CompressorOptions := .zstd 9

/-- Embedding of `Compressor.parseOptions` (compressor.go): dispatch on the
compressor id; every compressor other than LZ4 synthesizes defaults when
the options flag is clear, LZ4 parses unconditionally, LZMA never accepts
options, and unknown ids fail. -/
def parseOptions (c : Nat) (hasOptionsFlag : Bool) (ler : SLE) :
    Except GoErr CompressorOptions :=
  if c = compressorGZIP then
    if hasOptionsFlag then parseGZipOptions ler else .ok defaultGzipOptions
  else if c = compressorLZMA then .error .noCompressorOptions
  else if c = compressorLZO then
    if hasOptionsFlag then parseLZOOptions ler else .ok defaultLZOOptions
  else if c = compressorXZ then
    if hasOptionsFlag then parseXZOptions ler else .ok defaultXZOptions
  else if c = compressorLZ4 then parseLZ4Options ler
  else if c = compressorZSTD then
    if hasOptionsFlag then parseZStdOptions ler else .ok defaultZStdOptions
  else .error .invalidCompressor

/-- The parsed superblock (`superblock` struct plus the embedded `Stats`).
`modTime` is kept as raw seconds. -/
structure Superblock where
  inodes : Nat
  modTime : Nat
  blockSize : Nat
  fragCount : Nat
  compressor : Nat
  flags : Nat
  idCount : Nat
  rootInode : Nat
  bytesUsed : Nat
  idTable : Nat
  xattrTable : Nat
  inodeTable : Nat
  dirTable : Nat
  fragTable : Nat
  exportTable : Nat
  compressionOptions : CompressorOptions
deriving Repr, DecidableEq

/-- Length of the buffer `superblock.readFrom` fills before parsing:
`const headerLength = 104` in superblock.go (96 header bytes plus 8 bytes
for a compressor options record). -/
def headerLength : Nat := 104

/-- The superblock magic `0x73717368` ("hsqs"). -/
def sqfsMagic : Nat := 0x73717368

/-- Decode a 2-byte little-endian value. -/
def dec16 (b0 b1 : Nat) : Nat := b0 + 256 * b1

/-- Decode a 4-byte little-endian value. -/
def dec32 (b0 b1 b2 b3 : Nat) : Nat := b0 + 256 * (b1 + 256 * (b2 + 256 * b3))

/-- Decode an 8-byte little-endian value. -/
def dec64 (b0 b1 b2 b3 b4 b5 b6 b7 : Nat) : Nat :=
  dec32 b0 b1 b2 b3 + 2 ^ 32 * dec32 b4 b5 b6 b7

/-- Embedding of `superblock.readSuperBlockDetails`: decode the fixed
92 bytes that follow the magic, failing when `1 << log2BlockSize` (as a
uint32) differs from the block-size field or when the version is not 4.0.
The sequential byteio sticky reads are fused into one pattern match over
the buffer; the field order, the decoded values and the order of the two
validity checks are exactly those of the source.  When the buffer is too
short, byteio's sticky reader yields zero for every remaining field, so
the source fails its `1 << log2 == blockSize` check (`1 ≠ 0`); the
fallback arm reproduces that outcome. -/
def readSuperBlockDetails (ler : SLE) : Except GoErr (Superblock × SLE) :=
  match ler.data, ler.err with
  | i0 :: i1 :: i2 :: i3 :: m0 :: m1 :: m2 :: m3 ::
      s0 :: s1 :: s2 :: s3 :: f0 :: f1 :: f2 :: f3 ::
      c0 :: c1 :: g0 :: g1 :: w0 :: w1 :: d0 :: d1 ::
      va0 :: va1 :: vb0 :: vb1 :: k0 :: k1 :: k2 :: k3 ::
      k4 :: k5 :: k6 :: k7 :: k8 :: k9 :: k10 :: k11 ::
      k12 :: k13 :: k14 :: k15 :: k16 :: k17 :: k18 :: k19 ::
      k20 :: k21 :: k22 :: k23 :: k24 :: k25 :: k26 :: k27 ::
      k28 :: k29 :: k30 :: k31 :: k32 :: k33 :: k34 :: k35 ::
      k36 :: k37 :: k38 :: k39 :: k40 :: k41 :: k42 :: k43 ::
      k44 :: k45 :: k46 :: k47 :: k48 :: k49 :: k50 :: k51 ::
      k52 :: k53 :: k54 :: k55 :: k56 :: k57 :: k58 :: k59 ::
      k60 :: k61 :: k62 :: k63 ::
      rest, false =>
    if 1 <<< dec16 g0 g1 % 2 ^ 32 ≠ dec32 s0 s1 s2 s3 then .error .invalidBlockSize
    else if dec16 va0 va1 ≠ 4 ∨ dec16 vb0 vb1 ≠ 0 then .error .invalidVersion
    else
      .ok ({ inodes := dec32 i0 i1 i2 i3, modTime := dec32 m0 m1 m2 m3,
             blockSize := dec32 s0 s1 s2 s3, fragCount := dec32 f0 f1 f2 f3,
             compressor := dec16 c0 c1, flags := dec16 w0 w1,
             idCount := dec16 d0 d1,
             rootInode := dec64 k0 k1 k2 k3 k4 k5 k6 k7,
             bytesUsed := dec64 k8 k9 k10 k11 k12 k13 k14 k15,
             idTable := dec64 k16 k17 k18 k19 k20 k21 k22 k23,
             xattrTable := dec64 k24 k25 k26 k27 k28 k29 k30 k31,
             inodeTable := dec64 k32 k33 k34 k35 k36 k37 k38 k39,
             dirTable := dec64 k40 k41 k42 k43 k44 k45 k46 k47,
             fragTable := dec64 k48 k49 k50 k51 k52 k53 k54 k55,
             exportTable := dec64 k56 k57 k58 k59 k60 k61 k62 k63,
             compressionOptions := defaultGzipOptions }, { data := rest, err := false })
  | _, _ => .error .invalidBlockSize

/-- Embedding of `superblock.readFrom`: `io.ReadFull` demands
`headerLength` (104) bytes from the source — fewer fail with the io error
— then the magic is checked, the details parsed, and the compressor
options parsed from the remaining buffered bytes. -/
def readFrom (src : List Nat) : Except GoErr Superblock :=
  if src.length < headerLength then
    .error (if src.length = 0 then .eof else .unexpectedEOF)
  else
    match src.take headerLength with
    | g0 :: g1 :: g2 :: g3 :: rest =>
      if dec32 g0 g1 g2 g3 ≠ sqfsMagic then .error .invalidMagicNumber
      else
        match readSuperBlockDetails { data := rest, err := false } with
        | .error e => .error e
        | .ok (sb, ler) =>
          match parseOptions sb.compressor (sb.flags &&& 0x400 ≠ 0) ler with
          | .error e => .error e
          | .ok opts => .ok { sb with compressionOptions := opts }
    | _ => .error .invalidMagicNumber

/-- A 96-byte superblock image (no options record), parameterised by the
block-size field, its log2 field, the compressor id and the flags; all
counts and table offsets are zero, version is 4.0 and the magic is
valid. -/
def mkSuperblockBytes (blockSize lg compressor flags : Nat) : List Nat :=
  le32 sqfsMagic ++ le32 0 ++ le32 0 ++ le32 blockSize ++ le32 0 ++
    le16 compressor ++ le16 lg ++ le16 flags ++ le16 0 ++ le16 4 ++ le16 0 ++
    le64 0 ++ le64 0 ++ le64 0 ++ le64 0 ++ le64 0 ++ le64 0 ++ le64 0 ++ le64 0

/-- Eight zero bytes: what follows the 96-byte header inside the 104-byte
buffer when the image carries no options record. -/
def pad8 : List Nat := List.replicate 8 0

/-- One cached decompressed block (`cachedBlock` of blockcache.go): the
on-disk offset it is keyed by and the decompressed bytes. -/
structure CachedBlock where
  ptr : Int
  data : List Nat
deriving Repr, DecidableEq

/-- The block cache (`blockCache` of blockcache.go): the linked list from
`head` to `tail` becomes a Lean list whose head is the least-recently-used
entry and whose last element is the most-recently-used `tail`; the
remaining byte budget is a Go `int`. -/
structure BlockCache where
  entries : List CachedBlock
  bytesRemaining : Int
deriving Repr, DecidableEq

/-- Embedding of `newBlockCache`. -/
def newBlockCache (length : Int) : BlockCache :=
  { entries := [], bytesRemaining := length }

/-- Sum of the byte lengths of all cached entries. -/
def entriesBytes (l : List CachedBlock) : Nat := (l.map (fun cb => cb.data.length)).sum

/-- Total number of decompressed bytes held by the cache. -/
def totalBytes (b : BlockCache) : Nat := entriesBytes b.entries

/-- Helper for `getExistingBlock`: find the first entry with the given
pointer and return it together with the list with that entry removed
(order of the others preserved), mirroring the linked-list walk of the
source. -/
def extractBlock : List CachedBlock → Int → Option (CachedBlock × List CachedBlock)
  | [], _ => none
  | cb :: rest, ptr =>
    if cb.ptr = ptr then some (cb, rest)
    else
      match extractBlock rest ptr with
      | none => none
      | some (found, rest2) => some (found, cb :: rest2)

/-- Embedding of `blockCache.getExistingBlock`: on a hit the entry is
moved to the most-recently-used (tail) position — the source unlinks the
node and re-appends it at the tail, which for the already-tail node is the
identity, exactly as removing and re-appending is. -/
def getExistingBlock (b : BlockCache) (ptr : Int) : Option (List Nat) × BlockCache :=
  match extractBlock b.entries ptr with
  | none => (none, b)
  | some (cb, rest) => (some cb.data, { b with entries := rest ++ [cb] })

/-- Recursion of `blockCache.clearSpace` over the entry list: evict from
the head (least recently used) while entries remain and the remaining
budget is below the requested length, returning each evicted entry's
bytes to the budget. -/
def clearSpaceGo : List CachedBlock → Int → Int → List CachedBlock × Int
  | [], rem, _ => ([], rem)
  | node :: rest, rem, l =>
    if rem < l then clearSpaceGo rest (rem + node.data.length) l
    else (node :: rest, rem)

/-- Embedding of `blockCache.clearSpace`. -/
def clearSpace (b : BlockCache) (l : Int) : BlockCache :=
  let p := clearSpaceGo b.entries b.bytesRemaining l
  { entries := p.1, bytesRemaining := p.2 }

/-- Embedding of `blockCache.addData`: insert at the most-recently-used
(tail) position unless the remaining budget is still smaller than the
data. -/
def addData (b : BlockCache) (ptr : Int) (data : List Nat) : BlockCache :=
  if b.bytesRemaining < (data.length : Int) then b
  else { entries := b.entries ++ [⟨ptr, data⟩],
         bytesRemaining := b.bytesRemaining - data.length }

/-- Embedding of `decompressBlock` (blockcache.go) composed with
`Compressor.decompress` (compressor.go): compressor id 0 means the bytes
are taken verbatim, GZIP routes through the external zlib decompressor
`gz`, and every other id fails with the unsupported-compressor error
before any read happens. -/
def decompressBlock (gz : List Nat → Except GoErr (List Nat)) (raw : List Nat) (c : Nat) :
    Except GoErr (List Nat) :=
  if c ≠ 0 then
    if c = compressorGZIP then gz raw else .error .unsupportedCompressor
  else .ok raw

/-- Embedding of `blockCache.getOrSetBlock`: look up, decompress on miss,
re-check (the sequentialised double-checked lock of the source), evict
until the new block fits, insert at MRU. -/
def getOrSetBlock (gz : List Nat → Except GoErr (List Nat)) (b : BlockCache) (ptr : Int)
    (raw : List Nat) (c : Nat) : Except GoErr (List Nat) × BlockCache :=
  match getExistingBlock b ptr with
  | (some data, b1) => (.ok data, b1)
  | (none, b1) =>
    match decompressBlock gz raw c with
    | .error e => (.error e, b1)
    | .ok data =>
      match getExistingBlock b1 ptr with
      | (some d2, b2) => (.ok d2, b2)
      | (none, b2) =>
        let b3 := clearSpace b2 data.length
        let b4 := addData b3 ptr data
        (.ok data, b4)

/-- A sequence of cache accesses: each operation carries the on-disk
pointer, the raw on-disk bytes and the compressor id. -/
def runCacheOps (gz : List Nat → Except GoErr (List Nat)) (b : BlockCache)
    (ops : List (Int × List Nat × Nat)) : BlockCache :=
  ops.foldl (fun acc op => (getOrSetBlock gz acc op.1 op.2.1 op.2.2).2) b

/-- The cache accounting invariant: the remaining budget is nonnegative
and cached bytes plus remaining budget equal the configured budget. -/
def cacheInv (budget : Int) (b : BlockCache) : Prop :=
  0 ≤ b.bytesRemaining ∧ (totalBytes b : Int) + b.bytesRemaining = budget

/-- Size of a decompressed metablock (`const blockSize = 1 << 13` of
metadata.go; renamed here to avoid clashing with the superblock's data
block size). -/
def metaBlockSize : Nat := 1 <<< 13

/-- Size of the metablock on-disk header (`blockHeaderSize`). -/
def blockHeaderSize : Nat := 2

/-- Shift between a metadata pointer's block-offset and byte-offset
halves (`metadataPointerShift`). -/
def metadataPointerShift : Nat := 16

/-- Mask of a metadata pointer's byte-offset half (`metadataPointerMask`). -/
def metadataPointerMask : Nat := 0xffff

/-- Mask of a metablock header's size bits (`metadataBlockSizeMask`). -/
def metadataBlockSizeMask : Nat := 0x7fff

/-- Flag bit of a metablock header marking the payload as stored raw
(`metadataBlockCompressedMask`). -/
def metadataBlockCompressedMask : Nat := 0x8000

/-- Bytes served by `io.NewSectionReader(reader, off, len)` over the
image followed by reading it all. -/
def sectionBytes (img : List Nat) (off len : Nat) : List Nat := (img.drop off).take len

/-- Read a little-endian uint16 at an absolute image offset
(`byteio.LittleEndianReader` over a two-byte section reader); io.ReadFull
yields EOF when nothing is readable and unexpected-EOF on a short read. -/
def readUint16At (img : List Nat) (off : Nat) : Except GoErr Nat :=
  match img.drop off with
  | b0 :: b1 :: _ => .ok (b0 + 256 * b1)
  | [_] => .error .unexpectedEOF
  | [] => .error .eof

/-- Read a little-endian uint64 at an absolute image offset. -/
def readUint64At (img : List Nat) (off : Nat) : Except GoErr Nat :=
  match img.drop off with
  | b0 :: b1 :: b2 :: b3 :: b4 :: b5 :: b6 :: b7 :: _ =>
      .ok (b0 + 256 * (b1 + 256 * (b2 + 256 * (b3 + 256 * (b4 + 256 * (b5 + 256 * (b6 + 256 * b7)))))))
  | [] => .error .eof
  | _ => .error .unexpectedEOF

/-- An in-memory byte reader with a position: the model of both
`bytes.Reader` (over cached decompressed data) and a section reader whose
bytes have been materialised. -/
structure ByteReader where
  data : List Nat
  pos : Nat
deriving Repr, DecidableEq

/-- One read from a `ByteReader`: up to `n` bytes from the current
position; `bytes.Reader` reports EOF exactly when no byte could be
served and at least one was requested. -/
def ByteReader.read (br : ByteReader) (n : Nat) : (List Nat × Option GoErr) × ByteReader :=
  let got := (br.data.drop br.pos).take n
  let br1 : ByteReader := { br with pos := br.pos + got.length }
  if got.length = 0 ∧ n > 0 then (([], some .eof), br1) else ((got, none), br1)

/-- State of `blockReader` (metadata.go): the current in-block reader and
the on-disk position of the next metablock header. -/
structure BlockReader where
  r : ByteReader
  next : Nat
deriving Repr, DecidableEq

/-- Embedding of `blockReader.nextReader` (metadata.go): read the 2-byte
header at `next`, reject sizes above 8192, slice the payload at
`next + blockHeaderSize`, decompress through the block cache keyed by
`next` when the raw flag (0x8000) is clear, and advance `next` by
`size` — the source's `b.next += size`, which does not include the
2-byte header. -/
def nextReader (gz : List Nat → Except GoErr (List Nat)) (comp : Nat) (img : List Nat)
    (st : BlockReader) (cache : BlockCache) : Except GoErr BlockReader × BlockCache :=
  match readUint16At img st.next with
  | .error e => (.error e, cache)
  | .ok header =>
    let size := header &&& metadataBlockSizeMask
    if size > metaBlockSize then (.error .invalidBlockHeader, cache)
    else
      let raw := sectionBytes img (st.next + blockHeaderSize) size
      if header &&& metadataBlockCompressedMask = 0 then
        match getOrSetBlock gz cache (st.next : Int) raw comp with
        | (.error e, cache') => (.error e, cache')
        | (.ok data, cache') =>
          (.ok { r := { data := data, pos := 0 }, next := st.next + size }, cache')
      else
        (.ok { r := { data := raw, pos := 0 }, next := st.next + size }, cache)

/-- Embedding of `blockReader.init`: fetch the first metablock and seek
`skipCount` bytes into it (a `bytes.Reader` seek always succeeds for a
nonnegative offset). -/
def blockReaderInit (gz : List Nat → Except GoErr (List Nat)) (comp : Nat) (img : List Nat)
    (st : BlockReader) (cache : BlockCache) (skipCount : Nat) :
    Except GoErr BlockReader × BlockCache :=
  match nextReader gz comp img st cache with
  | (.error e, cache') => (.error e, cache')
  | (.ok st1, cache') =>
    if skipCount > 0 then (.ok { st1 with r := { st1.r with pos := skipCount } }, cache')
    else (.ok st1, cache')

/-- Embedding of `squashfs.readMetadata`: split the 48-bit metadata
pointer into its block offset (added to the table base) and its in-block
byte offset (rejected above 8192 with the invalid-pointer error), then
initialise a `blockReader` there. -/
def readMetadata (gz : List Nat → Except GoErr (List Nat)) (comp : Nat) (img : List Nat)
    (pointer table : Nat) (cache : BlockCache) : Except GoErr BlockReader × BlockCache :=
  let onDisk := table + (pointer >>> metadataPointerShift)
  let pos := pointer &&& metadataPointerMask
  if pos > metaBlockSize then (.error .invalidPointer, cache)
  else blockReaderInit gz comp img { r := { data := [], pos := 0 }, next := onDisk } cache pos

/-- Embedding of `blockReader.Read` (metadata.go): read from the current
metablock; on its end chain transparently to the next metablock.  The Go
code can loop forever over zero-sized metablocks, so the model carries
fuel. -/
def blockReaderRead (gz : List Nat → Except GoErr (List Nat)) (comp : Nat) (img : List Nat) :
    Nat → BlockReader → BlockCache → Nat →
      (List Nat × Option GoErr) × BlockReader × BlockCache
  | 0, st, cache, _ => (([], some .outOfFuel), st, cache)
  | fuel + 1, st, cache, n =>
    match st.r.read n with
    | ((got, none), r1) => ((got, none), { st with r := r1 }, cache)
    | ((_, some _), r1) =>
      match nextReader gz comp img { st with r := r1 } cache with
      | (.error e, cache') => (([], some e), { st with r := r1 }, cache')
      | (.ok st2, cache') => blockReaderRead gz comp img fuel st2 cache' n

/-- Read exactly `n` bytes from a metadata stream (`io.ReadFull`
semantics layered over `blockReader.Read`, as byteio's sticky reader
does). -/
def blockReaderReadFull (gz : List Nat → Except GoErr (List Nat)) (comp : Nat)
    (img : List Nat) : Nat → BlockReader → BlockCache → Nat →
      (List Nat × Option GoErr) × BlockReader × BlockCache
  | 0, st, cache, _ => (([], some .outOfFuel), st, cache)
  | fuel + 1, st, cache, n =>
    match blockReaderRead gz comp img (fuel + 1) st cache n with
    | ((got, none), st1, cache1) =>
      if got.length < n then
        match blockReaderReadFull gz comp img fuel st1 cache1 (n - got.length) with
        | ((got2, err2), st2, cache2) => ((got ++ got2, err2), st2, cache2)
      else ((got, none), st1, cache1)
    | ((got, some e), st1, cache1) => ((got, some e), st1, cache1)

/-- Modelled from the spec: `readMetadataFromLookupTable` is called by
`file.getFragmentDetails` and `SquashFS.getID` but its definition is not
among the provided sources.  Per spec §4.2, given `(tableBase, index,
entryBytes)` it reads a uint64 metadata pointer at
`tableBase + (index>>10)*8`, opens the metadata stream it names, seeks
`(index * entryBytes) mod 8192` bytes into it and exposes the first
`entryBytes` bytes as a readable slice. -/
def readMetadataFromLookupTable (gz : List Nat → Except GoErr (List Nat)) (comp : Nat)
    (img : List Nat) (table index entryBytes : Nat) (cache : BlockCache) :
    Except GoErr ByteReader × BlockCache :=
  match readUint64At img (table + (index >>> 10) * 8) with
  | .error e => (.error e, cache)
  | .ok mdPos =>
    match readMetadata gz comp img ((index * entryBytes) % metaBlockSize) mdPos cache with
    | (.error e, cache') => (.error e, cache')
    | (.ok st, cache') =>
      match blockReaderReadFull gz comp img (entryBytes + 2) st cache' entryBytes with
      | ((got, none), _, cache2) => (.ok { data := got, pos := 0 }, cache2)
      | ((_, some e), _, cache2) => (.error e, cache2)

/-- Sentinel for a disabled inode field (`fieldDisabled`). -/
def fieldDisabled : Nat := 0xFFFFFFFF

/-- Mask of the on-disk byte size inside a 32-bit block-size field
(`sizeMask` of file.go). -/
def sizeMask : Nat := 0x00ffffff

/-- Bit 24 of a block-size field: set means the block is stored raw
(`compressionMask` of file.go). -/
def compressionMask : Nat := 0x01000000

/-- Byte size of a fragment descriptor (`fragmentDetailSize`). -/
def fragmentDetailSize : Nat := 16

/-- The fields of `fileStat` consumed by the file reader. -/
structure FileStat where
  blocksStart : Nat
  fragIndex : Nat
  blockOffset : Nat
  fileSize : Nat
  blockSizes : List Nat
deriving Repr, DecidableEq

/-- The image-wide state a file handle shares (`SquashFS`): the byte
source, the superblock fields the reader consumes and the fragment-table
base. -/
structure SqfsEnv where
  img : List Nat
  blockSizeSB : Nat
  comp : Nat
  fragTable : Nat

/-- A file handle (`file` of file.go): the inode record, the detached
flag (`squashfs == nil` after Close), the cached inner reader and the
logical position. -/
structure FileHandle where
  file : FileStat
  closed : Bool
  reader : Option ByteReader
  pos : Nat
deriving Repr, DecidableEq

/-- Sum of the masked on-disk sizes of a prefix of the block-size array
(the loop of `getBlockReader` computing the block's start). -/
def sumSizesMasked (sizes : List Nat) : Nat := (sizes.map (fun s => s &&& sizeMask)).sum

/-- Embedding of `file.getBlockReader`: compute the block's on-disk start
and encoded size, choose the compressor (bit 24 clear means compressed
with the image compressor, set means raw — a zero size also has bit 24
clear and is routed to the decompressor), and fetch through the block
cache keyed by the start offset. -/
def getBlockReader (gz : List Nat → Except GoErr (List Nat)) (env : SqfsEnv) (f : FileStat)
    (block : Nat) (cache : BlockCache) : Except GoErr ByteReader × BlockCache :=
  let start := f.blocksStart + sumSizesMasked (f.blockSizes.take block)
  let size := f.blockSizes.getD block 0
  let c := if size &&& compressionMask = 0 then env.comp else 0
  let raw := sectionBytes env.img start (size &&& sizeMask)
  match getOrSetBlock gz cache (start : Int) raw c with
  | (.error e, cache') => (.error e, cache')
  | (.ok data, cache') => (.ok { data := data, pos := 0 }, cache')

/-- Embedding of `file.getFragmentDetails` (file.go, via the
spec-modelled lookup helper): a 16-byte descriptor holding the fragment
block's start and size, whose trailing uint32 must be zero. -/
def getFragmentDetails (gz : List Nat → Except GoErr (List Nat)) (env : SqfsEnv)
    (f : FileStat) (cache : BlockCache) : Except GoErr (Nat × Nat) × BlockCache :=
  match readMetadataFromLookupTable gz env.comp env.img env.fragTable f.fragIndex
      fragmentDetailSize cache with
  | (.error e, cache') => (.error e, cache')
  | (.ok br, cache') =>
    match br.data with
    | b0 :: b1 :: b2 :: b3 :: b4 :: b5 :: b6 :: b7 :: s0 :: s1 :: s2 :: s3 ::
        u0 :: u1 :: u2 :: u3 :: _ =>
      let start := dec64 b0 b1 b2 b3 b4 b5 b6 b7
      let size := dec32 s0 s1 s2 s3
      if dec32 u0 u1 u2 u3 ≠ 0 then (.error .errInvalid, cache')
      else (.ok (start, size), cache')
    | _ => (.error .unexpectedEOF, cache')

/-- Embedding of `file.getFragmentReader`: bit 24 clear means the shared
fragment block is compressed — decompress it through the cache and
window it at `blockOffset` for `fileSize mod blockSize` bytes; bit 24 set
means raw — read directly from the image. -/
def getFragmentReader (gz : List Nat → Except GoErr (List Nat)) (env : SqfsEnv)
    (f : FileStat) (cache : BlockCache) : Except GoErr ByteReader × BlockCache :=
  match getFragmentDetails gz env f cache with
  | (.error e, cache') => (.error e, cache')
  | (.ok (start, size), cache') =>
    let fragmentSize := f.fileSize % env.blockSizeSB
    if size &&& compressionMask = 0 then
      match getOrSetBlock gz cache' (start : Int) (sectionBytes env.img start size)
          env.comp with
      | (.error e, cache2) => (.error e, cache2)
      | (.ok data, cache2) =>
        (.ok { data := (data.drop f.blockOffset).take fragmentSize, pos := 0 }, cache2)
    else
      (.ok { data := sectionBytes env.img (start + f.blockOffset) fragmentSize, pos := 0 },
       cache')

/-- Embedding of `file.getReader`: a data block while the index is in
range, else the tail fragment if the inode has one, else EOF. -/
def getReader (gz : List Nat → Except GoErr (List Nat)) (env : SqfsEnv) (f : FileStat)
    (block : Nat) (cache : BlockCache) : Except GoErr ByteReader × BlockCache :=
  if block < f.blockSizes.length then getBlockReader gz env f block cache
  else if f.fragIndex ≠ fieldDisabled then getFragmentReader gz env f cache
  else (.error .eof, cache)

/-- Embedding of `file.getBlockOffset`. -/
def getBlockOffset (env : SqfsEnv) (pos : Nat) : Nat × Nat :=
  (pos / env.blockSizeSB, pos % env.blockSizeSB)

/-- Embedding of `file.getOffsetReader`: reject positions at or past the
file size, open the reader of the addressed block and seek to the
in-block offset. -/
def getOffsetReader (gz : List Nat → Except GoErr (List Nat)) (env : SqfsEnv) (f : FileStat)
    (pos : Nat) (cache : BlockCache) : Except GoErr ByteReader × BlockCache :=
  if pos ≥ f.fileSize then (.error .unexpectedEOF, cache)
  else
    let p := getBlockOffset env pos
    match getReader gz env f p.1 cache with
    | (.error e, cache') => (.error e, cache')
    | (.ok reader, cache') =>
      if p.2 > 0 then (.ok { reader with pos := p.2 }, cache')
      else (.ok reader, cache')

/-- Embedding of `file.prepareReader`: keep a cached inner reader, report
EOF at the end of the file, otherwise build a reader at the current
position. -/
def prepareReader (gz : List Nat → Except GoErr (List Nat)) (env : SqfsEnv)
    (f : FileHandle) (cache : BlockCache) : Except GoErr FileHandle × BlockCache :=
  match f.reader with
  | some _ => (.ok f, cache)
  | none =>
    if f.pos = f.file.fileSize then (.error .eof, cache)
    else
      match getOffsetReader gz env f.file f.pos cache with
      | (.error e, cache') => (.error e, cache')
      | (.ok reader, cache') => (.ok { f with reader := some reader }, cache')

/-- Embedding of `file.read` (file.go): prepare an inner reader, read
from it, advance the position, drop the reader at the end of a block when
more file remains, and recurse to fill the rest of the buffer.  The Go
recursion can fail to terminate on degenerate images (an inner reader
that repeatedly yields no bytes), so the model carries fuel. -/
def fileRead (gz : List Nat → Except GoErr (List Nat)) (env : SqfsEnv) :
    Nat → FileHandle → BlockCache → Nat →
      (List Nat × Option GoErr) × FileHandle × BlockCache
  | 0, f, cache, _ => (([], some .outOfFuel), f, cache)
  | fuel + 1, f, cache, n =>
    match prepareReader gz env f cache with
    | (.error e, cache') => (([], some e), f, cache')
    | (.ok f1, cache') =>
      match f1.reader with
      | none => (([], some .errInvalid), f1, cache')
      | some r =>
        match r.read n with
        | ((got, rerr), r1) =>
          let f2 : FileHandle := { f1 with reader := some r1, pos := f1.pos + got.length }
          let step : (List Nat × Option GoErr) × FileHandle :=
            if rerr = some GoErr.eof ∧ f2.pos < f2.file.fileSize then
              ((got, none), { f2 with reader := none })
            else ((got, rerr), f2)
          match step with
          | ((got, none), f3) =>
            if got.length < n then
              match fileRead gz env fuel f3 cache' (n - got.length) with
              | ((got2, err2), f4, cache2) => ((got ++ got2, err2), f4, cache2)
            else ((got, none), f3, cache')
          | ((got, some e), f3) => ((got, some e), f3, cache')

/-- Embedding of `file.ReadAt` (file.go): snapshot the image pointer
under the lock, fail on a closed handle, report EOF at `offset ==
fileSize`, and otherwise read through a freshly built private handle `g`
carrying the same inode record and the requested offset — the public
handle itself is returned unchanged. -/
def readAt (gz : List Nat → Except GoErr (List Nat)) (env : SqfsEnv) (fuel : Nat)
    (f : FileHandle) (cache : BlockCache) (n : Nat) (off : Nat) :
    (List Nat × Option GoErr) × FileHandle × BlockCache :=
  if f.closed then (([], some .errClosed), f, cache)
  else if off = f.file.fileSize then (([], some .eof), f, cache)
  else
    match fileRead gz env fuel
        { file := f.file, closed := false, reader := none, pos := off } cache n with
    | (res, _, cache') => (res, f, cache')

/-- Concrete environment for the sparse-block test: an empty image, a
128 KiB block size and the GZIP compressor. -/
def sparseTestEnv : SqfsEnv :=
  { img := [], blockSizeSB := 131072, comp := compressorGZIP, fragTable := 0 }

/-- Concrete 100-byte file whose single data block is recorded with
block-size field 0 (fully sparse) and which has no tail fragment. -/
def sparseTestFile : FileStat :=
  { blocksStart := 0, fragIndex := fieldDisabled, blockOffset := 0, fileSize := 100,
    blockSizes := [0] }

/-! ### Path resolver

Go strings are byte slices; the resolver model represents them as
`List Char` (the paths the resolver manipulates are ASCII, where byte
and character indices coincide). -/

/-- Split a path on '/' (Go `strings.Split`-style, used to iterate path
elements). -/
def splitOnSlash (p : List Char) : List (List Char) := p.splitOn '/'

/-- Join components with '/' between them. -/
def joinSlash (cs : List (List Char)) : List Char := List.intercalate ['/'] cs

/-- Embedding of Go `io/fs.ValidPath`: "." names the root; otherwise
every slash-separated element must be nonempty and neither "." nor
"..". -/
def goValidPath (p : List Char) : Bool :=
  p = ['.'] || (splitOnSlash p).all (fun e => !e.isEmpty && e ≠ ['.'] && e ≠ ['.', '.'])

/-- Component processing of Go `path.Clean`: drop empty and "."
elements, make ".." consume the previous element (or survive at the
front of a relative path, or vanish at the root of a rooted one). -/
def cleanAux (rooted : Bool) : List (List Char) → List (List Char) → List (List Char)
  | [], acc => acc.reverse
  | e :: rest, acc =>
    if e = [] ∨ e = ['.'] then cleanAux rooted rest acc
    else if e = ['.', '.'] then
      match acc with
      | a :: acc2 =>
        if a = ['.', '.'] then cleanAux rooted rest (e :: a :: acc2)
        else cleanAux rooted rest acc2
      | [] => if rooted then cleanAux rooted rest [] else cleanAux rooted rest [e]
    else cleanAux rooted rest (e :: acc)

/-- Embedding of Go `path.Clean` (lexical cleaning; same component
algorithm as the Go implementation, expressed over split components). -/
def goClean (p : List Char) : List Char :=
  if p = [] then ['.']
  else
    let rooted := p.head? = some '/'
    let out := joinSlash (cleanAux rooted (splitOnSlash p) [])
    if rooted then '/' :: out
    else if out = [] then ['.'] else out

/-- Embedding of Go `path.Join`: drop empty elements, join with '/',
clean; all-empty input yields the empty string. -/
def goJoin (elems : List (List Char)) : List Char :=
  let ne := elems.filter (fun e => ¬e.isEmpty)
  if ne.isEmpty then [] else goClean (joinSlash ne)

/-- A directory entry as the resolver sees it: the decoded `fs.FileInfo`
variants of the source (`dirStat`, `symlinkStat`, `fileStat`,
`blockStat`, `charStat`, `fifoStat`, `socketStat`), carrying the name
it was found under, its permission bits and the fields the walk
consumes. -/
inductive Entry where
  | dirE (perms : Nat) (name : List Char) (blockIndex blockOffset fileSize : Nat)
  | symlinkE (perms : Nat) (name targetPath : List Char)
  | fileE (perms : Nat) (name : List Char)
  | blockE (perms : Nat) (name : List Char)
  | charE (perms : Nat) (name : List Char)
  | fifoE (perms : Nat) (name : List Char)
  | sockE (perms : Nat) (name : List Char)
deriving Repr, DecidableEq

/-- Go `fs.ModeDir` (bit 31). -/
def modeDir : Nat := 2 ^ 31

/-- Go `fs.ModeSymlink` (bit 27). -/
def modeSymlink : Nat := 2 ^ 27

/-- Go `fs.ModeDevice` (bit 26). -/
def modeDevice : Nat := 2 ^ 26

/-- Go `fs.ModeNamedPipe` (bit 25). -/
def modeNamedPipe : Nat := 2 ^ 25

/-- Go `fs.ModeSocket` (bit 24). -/
def modeSocket : Nat := 2 ^ 24

/-- Go `fs.ModeCharDevice` (bit 21). -/
def modeCharDevice : Nat := 2 ^ 21

/-- The `Mode()` methods of the stat types: the type bit ored with the
permission bits (`perms` is a uint16 in the source, hence the `% 2^16`
for the Go integer conversion `fs.FileMode(c.perms)`). -/
def entryMode : Entry → Nat
  | .dirE p _ _ _ _ => modeDir ||| p % 2 ^ 16
  | .symlinkE p _ _ => modeSymlink ||| p % 2 ^ 16
  | .fileE p _ => p % 2 ^ 16
  | .blockE p _ => modeDevice ||| p % 2 ^ 16
  | .charE p _ => modeCharDevice ||| p % 2 ^ 16
  | .fifoE p _ => modeNamedPipe ||| p % 2 ^ 16
  | .sockE p _ => modeSocket ||| p % 2 ^ 16

/-- Whether an entry is a symlink (`curr.(symlinkStat)` type switch). -/
def isSymlink : Entry → Bool
  | .symlinkE _ _ _ => true
  | _ => false

/-- Whether an entry is a directory (`curr.(dirStat)` type switch). -/
def isDir : Entry → Bool
  | .dirE _ _ _ _ _ => true
  | _ => false

/-- The resolver state (`resolver` struct of the source): the full
path, the remaining path, the byte index just past the last consumed
component, and the redirect counter. -/
structure Resolver where
  fullPath : List Char
  path : List Char
  cutAt : Nat
  redirectsRemaining : Nat
deriving Repr, DecidableEq

/-- The redirect budget (`const maximumRedirects = 1024`). -/
def maximumRedirects : Nat := 1024

/-- Embedding of `resolver.splitOffNamePart`: cut the first component
off the remaining path at the first '/', advancing `cutAt` past it. -/
def splitOffNamePart (path : List Char) (cutAt : Nat) : List Char × List Char × Nat :=
  match path.findIdx? (· = '/') with
  | none => (path, [], cutAt)
  | some i => (path.take i, path.drop (i + 1), cutAt + i + 1)

/-- Embedding of `isEmptyName`. -/
def isEmptyName (name : List Char) : Bool := name = [] || name = ['.']

/-- Embedding of `resolver.handleSymlink`: decrement the redirect
counter and fail with the invalid error when it hits zero; otherwise
rewrite the full path — an absolute target resets it, a target at the
end of the path joins onto the consumed prefix, and a target in the
middle splices the unresolved remainder back on — and restart the walk
from the beginning.  (In Go the counter is an `int`; it starts at 1024
and the decrement-then-test-zero never drives it below zero on any
reachable state, so `Nat` subtraction is exact here.) -/
def handleSymlink (r : Resolver) (symName target : List Char) : Except GoErr Resolver :=
  let rr := r.redirectsRemaining - 1
  if rr = 0 then .error .errInvalid
  else
    let fullPath :=
      if target.head? = some '/' then (goClean target).drop 1
      else if r.path = [] then goJoin [r.fullPath.take r.cutAt, target]
      else goJoin [r.fullPath.take (r.cutAt - symName.length - 1), target, r.path]
    .ok { fullPath := fullPath, path := fullPath, cutAt := 0, redirectsRemaining := rr }

/-- Embedding of `resolver.resolve` (the walk loop): while path remains,
check readability and directory-ness of the current entry, split off the
next component, skip empty or "." components, look the component up in
the directory (`getDirEntry` is the abstract `lookup` parameter: the
source streams the sorted listing and yields the entry, not-exist, or an
io error), stop early at the last component unless following the last
symlink was requested, follow symlinks by rewriting the path and
restarting from the root, and otherwise descend.  Each non-symlink step
strictly shortens the remaining path and each symlink step strictly
decreases the redirect counter, which is why the Go loop — and this
recursion — terminates. -/
def resolveLoop (lookup : List Char → Nat → Nat → Nat → Except GoErr Entry) (root : Entry)
    (resolveLast : Bool) (r : Resolver) (curr : Entry) : Except GoErr Entry :=
  if hpath : r.path = [] then .ok curr
  else if entryMode curr &&& 0o444 = 0 then .error .errPermission
  else
    match curr with
    | .dirE _ _ blockIndex blockOffset fileSize =>
      let s := splitOffNamePart r.path r.cutAt
      let r1 : Resolver := { r with path := s.2.1, cutAt := s.2.2 }
      if isEmptyName s.1 then resolveLoop lookup root resolveLast r1 curr
      else
        match lookup s.1 blockIndex blockOffset fileSize with
        | .error e => .error e
        | .ok next =>
          if r1.path = [] ∧ resolveLast = false then .ok next
          else
            match next with
            | .symlinkE sp sname starget =>
              match hsym : handleSymlink r1 sname starget with
              | .error e => .error e
              | .ok r2 => resolveLoop lookup root resolveLast r2 root
            | _ => resolveLoop lookup root resolveLast r1 next
    | _ => .error .errInvalid
termination_by (r.redirectsRemaining, r.path.length)
decreasing_by
  · refine Prod.Lex.right _ ?_
    show (splitOffNamePart r.path r.cutAt).2.1.length < r.path.length
    unfold splitOffNamePart
    rcases hidx : r.path.findIdx? (· = '/') with _ | i
    · have : r.path.length ≠ 0 := fun hz => hpath (List.eq_nil_of_length_eq_zero hz)
      simpa using Nat.pos_of_ne_zero this
    · have hlen : (r.path.drop (i + 1)).length = r.path.length - (i + 1) :=
        List.length_drop _ _
      have : r.path.length ≠ 0 := fun hz => hpath (List.eq_nil_of_length_eq_zero hz)
      simp only [hlen]
      omega
  · refine Prod.Lex.left _ _ ?_
    show r2.redirectsRemaining < r.redirectsRemaining
    unfold handleSymlink at hsym
    by_cases hz : r.redirectsRemaining - 1 = 0
    · rw [if_pos hz] at hsym
      exact absurd hsym (by simp)
    · rw [if_neg hz] at hsym
      have : r2.redirectsRemaining = r.redirectsRemaining - 1 := by
        obtain h := Except.ok.inj hsym
        rw [← h]
      omega
  · refine Prod.Lex.right _ ?_
    show (splitOffNamePart r.path r.cutAt).2.1.length < r.path.length
    unfold splitOffNamePart
    rcases hidx : r.path.findIdx? (· = '/') with _ | i
    · have : r.path.length ≠ 0 := fun hz => hpath (List.eq_nil_of_length_eq_zero hz)
      simpa using Nat.pos_of_ne_zero this
    · have hlen : (r.path.drop (i + 1)).length = r.path.length - (i + 1) :=
        List.length_drop _ _
      have : r.path.length ≠ 0 := fun hz => hpath (List.eq_nil_of_length_eq_zero hz)
      simp only [hlen]
      omega

/-- Embedding of `SquashFS.resolve`: validate the path, start from the
root entry (the source stats the root inode once per call; the decoded
root is the `root` parameter here) and walk with a fresh resolver
carrying 1024 redirects. -/
def resolve (lookup : List Char → Nat → Nat → Nat → Except GoErr Entry) (root : Entry)
    (fpath : List Char) (resolveLast : Bool) : Except GoErr Entry :=
  if ¬ goValidPath fpath then .error .errInvalid
  else
    resolveLoop lookup root resolveLast
      { fullPath := fpath, path := fpath, cutAt := 0,
        redirectsRemaining := maximumRedirects } root

/-- Embedding of `SquashFS.Stat`: resolve following the last symlink
(the `fs.PathError` wrapper only annotates the error with the operation
name and path and is omitted). -/
def statFS (lookup : List Char → Nat → Nat → Nat → Except GoErr Entry) (root : Entry)
    (fpath : List Char) : Except GoErr Entry :=
  resolve lookup root fpath true

/-- Embedding of `SquashFS.LStat`: resolve without following the last
symlink. -/
def lstatFS (lookup : List Char → Nat → Nat → Nat → Except GoErr Entry) (root : Entry)
    (fpath : List Char) : Except GoErr Entry :=
  resolve lookup root fpath false

/-- Concrete cyclic image for the loop-bounding theorem: the root
directory contains a single name "a" which is a symlink to the absolute
path "/a". -/
def cycLookup : List Char → Nat → Nat → Nat → Except GoErr Entry :=
  fun name _ _ _ =>
    if name = ['a'] then .ok (.symlinkE 0o777 ['a'] ['/', 'a']) else .error .errNotExist

/-- The root directory of the cyclic image. -/
def cycRoot : Entry := .dirE 0o755 [] 0 0 3

/-! ## Theorems

Everything below this point is a theorem; all definitions of the
embedding are above. -/

/-- Round-trip of the 4-byte little-endian encoding. -/
theorem dec32_le32 (n : Nat) (h : n < 2 ^ 32) :
    dec32 (n % 256) (n / 256 % 256) (n / 2 ^ 16 % 256) (n / 2 ^ 24 % 256) = n := by
  unfold dec32
  omega

/-- Round-trip of the 2-byte little-endian encoding. -/
theorem dec16_le16 (n : Nat) (h : n < 2 ^ 16) : dec16 (n % 256) (n / 256 % 256) = n := by
  unfold dec16
  omega

/-- Unfolding step for `SLE.readUint16` on an error-free buffer. -/
theorem SLE.readUint16_cons (b0 b1 : Nat) (rest : List Nat) :
    SLE.readUint16 { data := b0 :: b1 :: rest, err := false } =
      (b0 + 256 * b1, { data := rest, err := false }) := rfl

/-- Unfolding step for `SLE.readUint32` on an error-free buffer. -/
theorem SLE.readUint32_cons (b0 b1 b2 b3 : Nat) (rest : List Nat) :
    SLE.readUint32 { data := b0 :: b1 :: b2 :: b3 :: rest, err := false } =
      (b0 + 256 * (b1 + 256 * (b2 + 256 * b3)), { data := rest, err := false }) := rfl

/-- Unfolding step for `SLE.readUint64` on an error-free buffer. -/
theorem SLE.readUint64_cons (b0 b1 b2 b3 b4 b5 b6 b7 : Nat) (rest : List Nat) :
    SLE.readUint64 { data := b0 :: b1 :: b2 :: b3 :: b4 :: b5 :: b6 :: b7 :: rest, err := false } =
      (b0 + 256 * (b1 + 256 * (b2 + 256 * (b3 + 256 * (b4 + 256 * (b5 + 256 * (b6 + 256 * b7)))))),
        { data := rest, err := false }) := rfl

/-- The concrete superblock images built below always occupy 104 bytes. -/
theorem mkSuperblockBytes_pad8_length (bs lg c f : Nat) :
    (mkSuperblockBytes bs lg c f ++ pad8).length = 104 := by
  simp [mkSuperblockBytes, le32, le16, le64, pad8]

/-- C3 counterexample: a byte source holding exactly a valid 96-byte
superblock (GZIP, no options flag) makes `readFrom` fail with the
unexpected-EOF io error, because `io.ReadFull` demands 104 bytes; the
claim says such a source must succeed. -/
theorem c3_valid96_fails :
    readFrom (mkSuperblockBytes (2 ^ 17) 17 compressorGZIP 0) = .error .unexpectedEOF ∧
      (mkSuperblockBytes (2 ^ 17) 17 compressorGZIP 0).length = 96 := by
  decide

/-- C3 amended: `superblock.readFrom` consumes exactly the first 104
bytes of the source (`headerLength = 104`): any source shorter than 104
bytes fails with an io error even when its first 96 bytes form a valid
header, bytes past the first 104 never influence the result, and a valid
96-byte header followed by 8 padding bytes parses successfully. -/
theorem c3_reads_exactly_104 :
    (∀ src : List Nat, src.length < 104 →
      readFrom src = .error (if src.length = 0 then .eof else .unexpectedEOF)) ∧
    (∀ src rest : List Nat, src.length = 104 → readFrom (src ++ rest) = readFrom src) ∧
    (readFrom (mkSuperblockBytes (2 ^ 17) 17 compressorGZIP 0 ++ pad8)).isOk = true := by
  refine ⟨?_, ?_, by decide⟩
  · intro src h
    simp [readFrom, headerLength, h]
  · intro src rest h
    have h104 : (104 : Nat) ≤ src.length := by omega
    simp [readFrom, headerLength, h, List.take_append_of_le_length h104]

/-- C3 witness: the theorem applied to a concrete 17-byte source and to a
concrete 104-byte source extended by garbage. -/
theorem c3_reads_exactly_104_witness :
    readFrom (List.replicate 17 0) = .error .unexpectedEOF ∧
      readFrom (mkSuperblockBytes (2 ^ 17) 17 compressorGZIP 0 ++ pad8 ++ [7, 7, 7]) =
        readFrom (mkSuperblockBytes (2 ^ 17) 17 compressorGZIP 0 ++ pad8) := by
  constructor
  · have h := c3_reads_exactly_104.1 (List.replicate 17 0) (by decide)
    simpa using h
  · have h := c3_reads_exactly_104.2.1
      (mkSuperblockBytes (2 ^ 17) 17 compressorGZIP 0 ++ pad8) [7, 7, 7] (by decide)
    simpa using h

/-- C5 counterexample: an image whose block-size field is 4 = 1 << 2
(far below 4 KiB) with matching log2 field parses successfully, and so
does one with block size 1 << 30 (above 1 MiB); the claim says both must
be rejected with the invalid-block-size error. -/
theorem c5_out_of_range_block_size_accepted :
    (readFrom (mkSuperblockBytes 4 2 compressorGZIP 0 ++ pad8)).isOk = true ∧
      (readFrom (mkSuperblockBytes (2 ^ 30) 30 compressorGZIP 0 ++ pad8)).isOk = true := by
  exact ⟨by decide, by decide⟩

/-- C5 amended: opening validates only that `1 << log2BlockSize` equals
the block-size field (as uint32 values); a mismatch fails with the
invalid-block-size error and any match is accepted, with no range check
against [2^12, 2^20].  Stated for GZIP images without an options
record. -/
theorem c5_block_size_check_is_log2_only (bs lg : Nat)
    (hbs : bs < 2 ^ 32) (hlg : lg < 2 ^ 16) :
    readFrom (mkSuperblockBytes bs lg compressorGZIP 0 ++ pad8) =
      if 1 <<< lg % 2 ^ 32 = bs then
        .ok { inodes := 0, modTime := 0, blockSize := bs, fragCount := 0,
              compressor := compressorGZIP, flags := 0, idCount := 0, rootInode := 0,
              bytesUsed := 0, idTable := 0, xattrTable := 0, inodeTable := 0,
              dirTable := 0, fragTable := 0, exportTable := 0,
              compressionOptions := defaultGzipOptions }
      else .error .invalidBlockSize := by
  have hdec := dec32_le32 bs hbs
  have hdec2 := dec16_le16 lg hlg
  have hlen := mkSuperblockBytes_pad8_length bs lg compressorGZIP 0
  have htake : (mkSuperblockBytes bs lg compressorGZIP 0 ++ pad8).take 104 =
      mkSuperblockBytes bs lg compressorGZIP 0 ++ pad8 :=
    List.take_of_length_le (by omega)
  rw [readFrom, headerLength] at *
  rw [hlen, if_neg (by omega), htake]
  simp only [mkSuperblockBytes, le32, le16, le64, pad8, List.cons_append,
    List.nil_append, List.replicate, sqfsMagic, compressorGZIP]
  simp only [readSuperBlockDetails, parseOptions, compressorGZIP, compressorLZMA,
    defaultGzipOptions]
  norm_num [dec32, dec16]
  have hbs2 : bs % 256 + 256 * (bs / 256 % 256 + 256 * (bs / 65536 % 256 + 256 * (bs / 16777216 % 256))) = bs := by
    omega
  have hlg2 : lg % 256 + 256 * (lg / 256 % 256) = lg := by omega
  rw [hbs2, hlg2]
  by_cases hc : 1 <<< lg % 4294967296 = bs
  · simp [hc, dec64, dec32]
  · simp [hc]

/-- C5 witness: the amended theorem applied at block size 4096 with log2
field 12 (a match, hence accepted). -/
theorem c5_block_size_check_witness :
    readFrom (mkSuperblockBytes 4096 12 compressorGZIP 0 ++ pad8) =
      .ok { inodes := 0, modTime := 0, blockSize := 4096, fragCount := 0,
            compressor := compressorGZIP, flags := 0, idCount := 0, rootInode := 0,
            bytesUsed := 0, idTable := 0, xattrTable := 0, inodeTable := 0,
            dirTable := 0, fragTable := 0, exportTable := 0,
            compressionOptions := defaultGzipOptions } := by
  have h := c5_block_size_check_is_log2_only 4096 12 (by decide) (by decide)
  simpa using h

/-- C6 counterexample: a GZIP options record with level 9, window 15 and
strategies 22 — within the claim's stated bound of 31 — is rejected with
the invalid-compression-strategies error, because the source bounds
strategies by `maxStrategy = 21`. -/
theorem c6_strategies_22_rejected :
    parseGZipOptions { data := le32 9 ++ le16 15 ++ le16 22, err := false } =
      .error .invalidCompressionStrategies := by
  decide

/-- C6 amended: for level in [1, 9] and window bits in [8, 15], gzip
option parsing succeeds if and only if the strategies field is at most 21
(`maxStrategy`); any larger value fails with the
invalid-compression-strategies error. -/
theorem c6_gzip_strategies_bound (level window strategies : Nat) (rest : List Nat)
    (hl1 : 1 ≤ level) (hl9 : level ≤ 9) (hw8 : 8 ≤ window) (hw15 : window ≤ 15)
    (hs : strategies < 2 ^ 16) :
    parseGZipOptions
        { data := le32 level ++ le16 window ++ le16 strategies ++ rest, err := false } =
      if strategies ≤ maxStrategy then .ok (.gzip level window strategies)
      else .error .invalidCompressionStrategies := by
  have hlvl : level % 256 + 256 * (level / 256 % 256 + 256 * (level / 65536 % 256 +
      256 * (level / 16777216 % 256))) = level := by omega
  have hwin : window % 256 + 256 * (window / 256 % 256) = window := by omega
  have hstr : strategies % 256 + 256 * (strategies / 256 % 256) = strategies := by omega
  simp only [le32, le16, List.cons_append, List.nil_append]
  simp only [parseGZipOptions, SLE.readUint32_cons, SLE.readUint16_cons]
  norm_num [hlvl, hwin, hstr]
  rw [if_neg (by omega), if_neg (by omega)]
  by_cases hc : strategies > maxStrategy
  · rw [if_pos hc, if_neg (by omega)]
  · rw [if_neg hc, if_pos (by omega)]

/-- C6 witness: the amended theorem applied at level 9, window 15,
strategies 21 (accepted) and strategies 30 (rejected). -/
theorem c6_gzip_strategies_bound_witness :
    parseGZipOptions { data := le32 9 ++ le16 15 ++ le16 21, err := false } =
        .ok (.gzip 9 15 21) ∧
      parseGZipOptions { data := le32 9 ++ le16 15 ++ le16 30, err := false } =
        .error .invalidCompressionStrategies := by
  constructor
  · have h := c6_gzip_strategies_bound 9 15 21 [] (by decide) (by decide) (by decide)
      (by decide) (by decide)
    simpa using h
  · have h := c6_gzip_strategies_bound 9 15 30 [] (by decide) (by decide) (by decide)
      (by decide) (by decide)
    simpa using h

/-- C10: LZ4 option parsing is attempted regardless of the
compressor-options flag — `parseOptions` dispatches LZ4 straight to
`parseLZ4Options` without consulting the flag and without synthesizing
defaults; the record must carry version 1 and flags at most 1, otherwise
the invalid-compressor-version or invalid-compressor-flags error results;
consequently an LZ4 superblock without an options record (options flag
clear, trailing bytes zero) fails to parse with the
invalid-compressor-version error. -/
theorem c10_lz4_options_always_parsed :
    (∀ (flag : Bool) (ler : SLE), parseOptions compressorLZ4 flag ler = parseLZ4Options ler) ∧
      (∀ (version flags : Nat) (rest : List Nat), version < 2 ^ 32 → flags < 2 ^ 32 →
        parseLZ4Options { data := le32 version ++ le32 flags ++ rest, err := false } =
          if version ≠ 1 then .error .invalidCompressorVersion
          else if flags > 1 then .error .invalidCompressorFlags
          else .ok (.lz4 1 flags)) ∧
      readFrom (mkSuperblockBytes (2 ^ 17) 17 compressorLZ4 0 ++ pad8) =
        .error .invalidCompressorVersion := by
  refine ⟨fun flag ler => rfl, ?_, by decide⟩
  intro version flags rest hv hf
  have hver : version % 256 + 256 * (version / 256 % 256 + 256 * (version / 65536 % 256 +
      256 * (version / 16777216 % 256))) = version := by omega
  have hflg : flags % 256 + 256 * (flags / 256 % 256 + 256 * (flags / 65536 % 256 +
      256 * (flags / 16777216 % 256))) = flags := by omega
  simp only [le32, List.cons_append, List.nil_append]
  simp only [parseLZ4Options, SLE.readUint32_cons]
  norm_num [hver, hflg]

/-- C10 witness: the theorem applied to the LZ4 dispatch at both flag
values on a concrete reader, and to a record with version 2. -/
theorem c10_lz4_witness :
    parseOptions compressorLZ4 true { data := [], err := false } =
        parseLZ4Options { data := [], err := false } ∧
      parseOptions compressorLZ4 false { data := [], err := false } =
        parseLZ4Options { data := [], err := false } ∧
      parseLZ4Options { data := le32 2 ++ le32 0, err := false } =
        .error .invalidCompressorVersion := by
  refine ⟨c10_lz4_options_always_parsed.1 true _, c10_lz4_options_always_parsed.1 false _, ?_⟩
  have h := c10_lz4_options_always_parsed.2.1 2 0 [] (by decide) (by decide)
  simpa using h

/-- Byte count of the empty entry list. -/
theorem entriesBytes_nil : entriesBytes [] = 0 := rfl

/-- Byte count of a cons cell of cache entries. -/
theorem entriesBytes_cons (a : CachedBlock) (as : List CachedBlock) :
    entriesBytes (a :: as) = a.data.length + entriesBytes as := by
  simp [entriesBytes]

/-- Byte count of appending a single entry. -/
theorem entriesBytes_concat (l : List CachedBlock) (a : CachedBlock) :
    entriesBytes (l ++ [a]) = entriesBytes l + a.data.length := by
  simp [entriesBytes]

/-- Byte accounting of `extractBlock`: removing the found entry removes
exactly its bytes. -/
theorem extractBlock_sum (l : List CachedBlock) (ptr : Int) (cb : CachedBlock)
    (rest : List CachedBlock) (h : extractBlock l ptr = some (cb, rest)) :
    entriesBytes rest + cb.data.length = entriesBytes l := by
  induction l generalizing rest with
  | nil => simp [extractBlock] at h
  | cons a as ih =>
    by_cases ha : a.ptr = ptr
    · rw [extractBlock, if_pos ha] at h
      obtain ⟨h1, h2⟩ := Prod.mk.injEq _ _ _ _ ▸ Option.some.injEq _ _ ▸ h
      subst h1
      subst h2
      rw [entriesBytes_cons]
      omega
    · rw [extractBlock, if_neg ha] at h
      cases hex : extractBlock as ptr with
      | none => rw [hex] at h; exact absurd h (by simp)
      | some p =>
        rw [hex] at h
        obtain ⟨h1, h2⟩ := Prod.mk.injEq _ _ _ _ ▸ Option.some.injEq _ _ ▸ h
        subst h1
        have hih := ih p.2 (by rw [hex])
        subst h2
        rw [entriesBytes_cons, entriesBytes_cons]
        omega

/-- A missed lookup means no cached entry carries the pointer. -/
theorem extractBlock_none (l : List CachedBlock) (ptr : Int)
    (h : extractBlock l ptr = none) : ∀ cb ∈ l, cb.ptr ≠ ptr := by
  induction l with
  | nil => simp
  | cons a as ih =>
    by_cases ha : a.ptr = ptr
    · rw [extractBlock, if_pos ha] at h
      exact absurd h (by simp)
    · rw [extractBlock, if_neg ha] at h
      intro cb hcb
      rcases List.mem_cons.mp hcb with hcb | hcb
      · subst hcb; exact ha
      · cases hex : extractBlock as ptr with
        | none => exact ih hex cb hcb
        | some p => rw [hex] at h; exact absurd h (by simp)

/-- `getExistingBlock` preserves the cache accounting invariant: a hit
only reorders the entries. -/
theorem getExistingBlock_inv (budget : Int) (b : BlockCache) (ptr : Int)
    (h : cacheInv budget b) : cacheInv budget (getExistingBlock b ptr).2 := by
  unfold getExistingBlock
  cases hex : extractBlock b.entries ptr with
  | none => simpa using h
  | some p =>
    have hsum := extractBlock_sum b.entries ptr p.1 p.2 (by rw [hex])
    obtain ⟨h1, h2⟩ := h
    refine ⟨by simpa using h1, ?_⟩
    have happ : entriesBytes (p.2 ++ [p.1]) = entriesBytes b.entries := by
      rw [entriesBytes_concat]
      omega
    simp only [totalBytes] at h2 ⊢
    simp only [happ]
    exact h2

/-- `clearSpaceGo` conserves bytes-plus-budget, never shrinks the budget,
stops only once the budget suffices or the cache is empty, and keeps only
entries that were already present. -/
theorem clearSpaceGo_spec (es : List CachedBlock) (rem l : Int) :
    ((entriesBytes (clearSpaceGo es rem l).1 : Int) + (clearSpaceGo es rem l).2 =
        (entriesBytes es : Int) + rem) ∧
      rem ≤ (clearSpaceGo es rem l).2 ∧
      (l ≤ (clearSpaceGo es rem l).2 ∨ (clearSpaceGo es rem l).1 = []) ∧
      (∀ cb ∈ (clearSpaceGo es rem l).1, cb ∈ es) := by
  induction es generalizing rem with
  | nil =>
    refine ⟨by simp [clearSpaceGo], by simp [clearSpaceGo], Or.inr (by simp [clearSpaceGo]),
      by simp [clearSpaceGo]⟩
  | cons a as ih =>
    by_cases hrem : rem < l
    · have hunf : clearSpaceGo (a :: as) rem l = clearSpaceGo as (rem + a.data.length) l := by
        rw [clearSpaceGo, if_pos hrem]
      obtain ⟨i1, i2, i3, i4⟩ := ih (rem + a.data.length)
      rw [hunf]
      refine ⟨?_, by omega, i3, fun cb hcb => List.mem_cons_of_mem a (i4 cb hcb)⟩
      rw [entriesBytes_cons]
      push_cast
      omega
    · have hunf : clearSpaceGo (a :: as) rem l = (a :: as, rem) := by
        rw [clearSpaceGo, if_neg hrem]
      rw [hunf]
      exact ⟨rfl, le_refl rem, Or.inl (by omega), fun cb hcb => hcb⟩

/-- `clearSpace` preserves the accounting invariant. -/
theorem clearSpace_inv (budget : Int) (b : BlockCache) (l : Int)
    (h : cacheInv budget b) : cacheInv budget (clearSpace b l) := by
  obtain ⟨h1, h2⟩ := h
  obtain ⟨c1, c2, _, _⟩ := clearSpaceGo_spec b.entries b.bytesRemaining l
  simp only [totalBytes] at h2
  constructor
  · simp only [clearSpace]
    omega
  · simp only [clearSpace, totalBytes]
    omega

/-- `addData` preserves the accounting invariant. -/
theorem addData_inv (budget : Int) (b : BlockCache) (ptr : Int) (data : List Nat)
    (h : cacheInv budget b) : cacheInv budget (addData b ptr data) := by
  obtain ⟨h1, h2⟩ := h
  simp only [totalBytes] at h2
  unfold addData
  by_cases hle : b.bytesRemaining < (data.length : Int)
  · rw [if_pos hle]
    exact ⟨h1, by simpa [totalBytes] using h2⟩
  · rw [if_neg hle]
    constructor
    · simp only []
      omega
    · simp only [totalBytes, entriesBytes_concat]
      push_cast
      omega

/-- `getOrSetBlock` preserves the accounting invariant. -/
theorem getOrSetBlock_inv (budget : Int) (gz : List Nat → Except GoErr (List Nat))
    (b : BlockCache) (ptr : Int) (raw : List Nat) (c : Nat) (h : cacheInv budget b) :
    cacheInv budget (getOrSetBlock gz b ptr raw c).2 := by
  rcases hex : getExistingBlock b ptr with ⟨r1, b1⟩
  have hb1 : cacheInv budget b1 := by
    have hh := getExistingBlock_inv budget b ptr h
    rw [hex] at hh
    exact hh
  cases r1 with
  | some data =>
    have hstep : getOrSetBlock gz b ptr raw c = (.ok data, b1) := by
      unfold getOrSetBlock
      rw [hex]
    rw [hstep]
    exact hb1
  | none =>
    cases hdec : decompressBlock gz raw c with
    | error e =>
      have hstep : getOrSetBlock gz b ptr raw c = (.error e, b1) := by
        unfold getOrSetBlock
        rw [hex, hdec]
      rw [hstep]
      exact hb1
    | ok data =>
      rcases hex2 : getExistingBlock b1 ptr with ⟨r2, b2⟩
      have hb2 : cacheInv budget b2 := by
        have hh := getExistingBlock_inv budget b1 ptr hb1
        rw [hex2] at hh
        exact hh
      cases r2 with
      | some d2 =>
        have hstep : getOrSetBlock gz b ptr raw c = (.ok d2, b2) := by
          unfold getOrSetBlock
          rw [hex]
          simp only []
          rw [hdec]
          simp only []
          rw [hex2]
        rw [hstep]
        exact hb2
      | none =>
        have hstep : getOrSetBlock gz b ptr raw c =
            (.ok data, addData (clearSpace b2 data.length) ptr data) := by
          unfold getOrSetBlock
          rw [hex]
          simp only []
          rw [hdec]
          simp only []
          rw [hex2]
        rw [hstep]
        exact addData_inv budget _ ptr data (clearSpace_inv budget b2 _ hb2)

/-- The invariant is preserved by every access sequence. -/
theorem runCacheOps_inv (budget : Int) (gz : List Nat → Except GoErr (List Nat))
    (ops : List (Int × List Nat × Nat)) (b : BlockCache) (h : cacheInv budget b) :
    cacheInv budget (runCacheOps gz b ops) := by
  induction ops generalizing b with
  | nil => simpa [runCacheOps] using h
  | cons op rest ih =>
    have h1 := getOrSetBlock_inv budget gz b op.1 op.2.1 op.2.2 h
    simpa [runCacheOps] using ih _ h1

/-- C4: the block cache respects its byte budget.  Starting from a fresh
cache with nonnegative budget, after any sequence of `getOrSetBlock`
accesses the total bytes of cached entries never exceed the budget; and
on any miss whose decompression succeeds, the decompressed bytes are
returned to the caller, a block larger than the whole budget is not
inserted (no entry with its key exists afterwards), while a block that
fits within the budget is inserted at the most-recently-used (tail)
position after evicting least-recently-used entries from the head. -/
theorem c4_cache_budget_lru :
    (∀ budget : Int, 0 ≤ budget → ∀ (gz : List Nat → Except GoErr (List Nat))
        (ops : List (Int × List Nat × Nat)),
      (totalBytes (runCacheOps gz (newBlockCache budget) ops) : Int) ≤ budget) ∧
      (∀ (budget : Int) (b : BlockCache) (gz : List Nat → Except GoErr (List Nat))
          (ptr : Int) (raw : List Nat) (c : Nat) (data : List Nat),
        cacheInv budget b →
        extractBlock b.entries ptr = none →
        decompressBlock gz raw c = .ok data →
        (getOrSetBlock gz b ptr raw c).1 = .ok data ∧
          (budget < (data.length : Int) →
            ∀ cb ∈ (getOrSetBlock gz b ptr raw c).2.entries, cb.ptr ≠ ptr) ∧
          ((data.length : Int) ≤ budget →
            (getOrSetBlock gz b ptr raw c).2.entries.getLast? = some ⟨ptr, data⟩)) := by
  constructor
  · intro budget hb gz ops
    have hinv : cacheInv budget (newBlockCache budget) := by
      constructor
      · simpa [newBlockCache] using hb
      · simp [newBlockCache, totalBytes, entriesBytes]
    obtain ⟨h1, h2⟩ := runCacheOps_inv budget gz ops _ hinv
    simp only [totalBytes] at h2 ⊢
    have hge : (0 : Int) ≤
        (entriesBytes (runCacheOps gz (newBlockCache budget) ops).entries : Int) := by
      positivity
    omega
  · intro budget b gz ptr raw c data hinv hmiss hdec
    have hgeb : getExistingBlock b ptr = (none, b) := by
      unfold getExistingBlock
      rw [hmiss]
    have hstep : getOrSetBlock gz b ptr raw c =
        (.ok data, addData (clearSpace b data.length) ptr data) := by
      unfold getOrSetBlock
      rw [hgeb]
      simp only []
      rw [hdec]
      simp only []
      rw [hgeb]
    obtain ⟨hrem0, hsum⟩ := hinv
    simp only [totalBytes] at hsum
    obtain ⟨c1, c2, c3, c4⟩ := clearSpaceGo_spec b.entries b.bytesRemaining data.length
    have hne : (0 : Int) ≤
        (entriesBytes (clearSpaceGo b.entries b.bytesRemaining data.length).1 : Int) := by
      positivity
    refine ⟨by rw [hstep], ?_, ?_⟩
    · intro hbig cb hcb
      have hlt : (clearSpace b data.length).bytesRemaining < (data.length : Int) := by
        simp only [clearSpace]
        omega
      have hnotins : addData (clearSpace b data.length) ptr data =
          clearSpace b data.length := by
        unfold addData
        rw [if_pos hlt]
      rw [hstep] at hcb
      rw [hnotins] at hcb
      have hmem : cb ∈ b.entries := c4 cb (by simpa [clearSpace] using hcb)
      exact extractBlock_none b.entries ptr hmiss cb hmem
    · intro hfits
      have hroom : (data.length : Int) ≤ (clearSpace b data.length).bytesRemaining := by
        rcases c3 with h3 | h3
        · simpa [clearSpace] using h3
        · simp only [clearSpace]
          rw [h3, entriesBytes_nil] at c1
          simp only [Nat.cast_zero, zero_add] at c1
          omega
      have hins : addData (clearSpace b data.length) ptr data =
          { entries := (clearSpace b data.length).entries ++ [⟨ptr, data⟩],
            bytesRemaining := (clearSpace b data.length).bytesRemaining - data.length } := by
        unfold addData
        rw [if_neg (by omega)]
      rw [hstep, hins]
      simp

/-- C4 witness: the theorem applied to a concrete budget of 10 bytes, an
identity decompressor and a concrete miss that fits the budget. -/
theorem c4_cache_budget_lru_witness :
    (totalBytes (runCacheOps (fun l => .ok l) (newBlockCache 10)
        [(0, [1, 2, 3], 0), (1, [4, 5], 0), (0, [9], 0)]) : Int) ≤ 10 ∧
      (getOrSetBlock (fun l => .ok l) (newBlockCache 10) 7 [1, 2] 0).2.entries.getLast? =
        some ⟨7, [1, 2]⟩ := by
  constructor
  · exact c4_cache_budget_lru.1 10 (by norm_num) (fun l => .ok l)
      [(0, [1, 2, 3], 0), (1, [4, 5], 0), (0, [9], 0)]
  · exact (c4_cache_budget_lru.2 10 (newBlockCache 10) (fun l => .ok l) 7 [1, 2] 0 [1, 2]
      ⟨by norm_num [newBlockCache], by norm_num [newBlockCache, totalBytes, entriesBytes]⟩
      (by decide) rfl).2.2 (by norm_num)

/-- C1: `blockReader.nextReader` advances the next-block position by
`size` only (`b.next += size`), not by `2 + size` as the claim and the
on-disk layout demand — the 2-byte header the reader itself consumed at
`next` is not skipped.  Concretely, after reading a raw metablock of
size 3 at offset 0 the next header is fetched from offset 3, while the
block written by the repository's own `metadataWriter` places it at
offset 5. -/
theorem c1_next_advances_by_size_only :
    (∀ (gz : List Nat → Except GoErr (List Nat)) (comp : Nat) (img : List Nat)
        (st st' : BlockReader) (cache cache' : BlockCache) (header : Nat),
      readUint16At img st.next = .ok header →
      nextReader gz comp img st cache = (.ok st', cache') →
      st'.next = st.next + (header &&& metadataBlockSizeMask)) ∧
      (nextReader (fun l => .ok l) compressorGZIP [0x03, 0x80, 10, 20, 30, 0x02, 0x80, 7, 8]
          { r := { data := [], pos := 0 }, next := 0 } (newBlockCache 16) =
        (.ok { r := { data := [10, 20, 30], pos := 0 }, next := 3 }, newBlockCache 16) ∧
        (0 + 3 : Nat) ≠ 0 + blockHeaderSize + 3) := by
  constructor
  · intro gz comp img st st' cache cache' header h1 h2
    unfold nextReader at h2
    rw [h1] at h2
    simp only [] at h2
    split at h2
    · simp at h2
    · split at h2
      · split at h2
        · simp at h2
        · simp only [Prod.mk.injEq, Except.ok.injEq] at h2
          obtain ⟨h2a, _⟩ := h2
          rw [← h2a]
      · simp only [Prod.mk.injEq, Except.ok.injEq] at h2
        obtain ⟨h2a, _⟩ := h2
        rw [← h2a]
  · exact ⟨by decide, by decide⟩

/-- C1 witness: on the concrete stream whose first metablock is stored
raw with size 3 (header bytes 0x03 0x80 at offset 0), the theorem's
general conjunct applied at that input yields next' = 0 + 3. -/
theorem c1_next_advances_witness :
    readUint16At [0x03, 0x80, 10, 20, 30, 0x02, 0x80, 7, 8] 0 = .ok 0x8003 ∧
      ({ r := { data := [10, 20, 30], pos := 0 }, next := 3 } : BlockReader).next =
        0 + (0x8003 &&& metadataBlockSizeMask) := by
  refine ⟨by decide, ?_⟩
  exact c1_next_advances_by_size_only.1 (fun l => .ok l) compressorGZIP
    [0x03, 0x80, 10, 20, 30, 0x02, 0x80, 7, 8]
    { r := { data := [], pos := 0 }, next := 0 }
    { r := { data := [10, 20, 30], pos := 0 }, next := 3 }
    (newBlockCache 16) (newBlockCache 16) 0x8003 (by decide) (by decide)

/-- C2: a data block recorded with block-size field 0 is not materialised
as zero bytes — bit 24 of a zero size field is clear, so
`getBlockReader` selects the image compressor and routes the zero-length
on-disk range through the decompressor; with zlib semantics (an error on
empty input) the block read fails and yields no bytes, instead of the
min(blockSize, remaining) = 100 zero bytes the claim requires. -/
theorem c2_sparse_block_not_zero_filled (gz : List Nat → Except GoErr (List Nat))
    (e : GoErr) (hgz : gz [] = .error e) (fuel n budget : Nat) :
    (getBlockReader gz sparseTestEnv sparseTestFile 0 (newBlockCache budget)).1 =
        .error e ∧
      (fileRead gz sparseTestEnv (fuel + 1)
          { file := sparseTestFile, closed := false, reader := none, pos := 0 }
          (newBlockCache budget) n).1 = ([], some e) ∧
      (fileRead gz sparseTestEnv (fuel + 1)
          { file := sparseTestFile, closed := false, reader := none, pos := 0 }
          (newBlockCache budget) n).1 ≠ (List.replicate 100 0, none) := by
  have hblk : getBlockReader gz sparseTestEnv sparseTestFile 0 (newBlockCache budget) =
      (.error e, newBlockCache budget) := by
    unfold getBlockReader getOrSetBlock getExistingBlock decompressBlock
    simp [sparseTestEnv, sparseTestFile, sumSizesMasked, sectionBytes, extractBlock,
      newBlockCache, compressorGZIP, hgz]
  have hblkL := hblk
  simp only [sparseTestEnv, sparseTestFile] at hblkL
  have h2 : (fileRead gz sparseTestEnv (fuel + 1)
      { file := sparseTestFile, closed := false, reader := none, pos := 0 }
      (newBlockCache budget) n).1 = ([], some e) := by
    unfold fileRead prepareReader getOffsetReader getReader getBlockOffset
    simp [sparseTestFile, sparseTestEnv, hblkL]
  refine ⟨by rw [hblk], h2, ?_⟩
  intro hcontra
  rw [h2] at hcontra
  simp at hcontra

/-- C2 witness: the theorem applied to the decompressor that fails with
the unexpected-EOF io error on empty input (zlib's behaviour). -/
theorem c2_sparse_block_witness :
    (fileRead (fun _ => .error .unexpectedEOF) sparseTestEnv 5
        { file := sparseTestFile, closed := false, reader := none, pos := 0 }
        (newBlockCache 1024) 100).1 = ([], some .unexpectedEOF) :=
  (c2_sparse_block_not_zero_filled (fun _ => .error .unexpectedEOF) .unexpectedEOF rfl
    4 100 1024).2.1

/-- C9: `file.ReadAt` operates through a transient private handle built
from the shared inode record at the requested offset: the public
handle's logical position and cached inner reader are returned unchanged
(so a subsequent `Read` continues exactly where it would have), and an
offset equal to the file size yields zero bytes with EOF. -/
theorem c9_readAt_transient_frame (gz : List Nat → Except GoErr (List Nat)) (env : SqfsEnv)
    (fuel : Nat) (f : FileHandle) (cache : BlockCache) (n off : Nat)
    (hopen : f.closed = false) :
    (readAt gz env fuel f cache n off).2.1 = f ∧
      (off = f.file.fileSize → (readAt gz env fuel f cache n off).1 = ([], some .eof)) ∧
      (off ≠ f.file.fileSize →
        (readAt gz env fuel f cache n off).1 =
          (fileRead gz env fuel
            { file := f.file, closed := false, reader := none, pos := off } cache n).1) := by
  unfold readAt
  rw [hopen]
  by_cases hoff : off = f.file.fileSize
  · simp [hoff]
  · refine ⟨?_, fun h => absurd h hoff, fun _ => ?_⟩
    · simp [hoff]
    · simp [hoff]

/-- C9 witness: the theorem applied to a concrete open handle at position
3 with a ReadAt at the exact file size. -/
theorem c9_readAt_witness :
    (readAt (fun _ => .error .unexpectedEOF) sparseTestEnv 5
        { file := sparseTestFile, closed := false, reader := none, pos := 3 }
        (newBlockCache 16) 10 100).2.1 =
        { file := sparseTestFile, closed := false, reader := none, pos := 3 } ∧
      (readAt (fun _ => .error .unexpectedEOF) sparseTestEnv 5
          { file := sparseTestFile, closed := false, reader := none, pos := 3 }
          (newBlockCache 16) 10 100).1 = ([], some .eof) := by
  have h := c9_readAt_transient_frame (fun _ => .error .unexpectedEOF) sparseTestEnv 5
    { file := sparseTestFile, closed := false, reader := none, pos := 3 }
    (newBlockCache 16) 10 100 rfl
  exact ⟨h.1, h.2.1 (by decide)⟩

/-- One iteration of the walk on the cyclic image: the component "a" is
looked up, found to be a symlink to "/a", and handed to
`handleSymlink`. -/
theorem cyc_resolveLoop_step (rd : Nat) :
    resolveLoop cycLookup cycRoot true
        { fullPath := ['a'], path := ['a'], cutAt := 0, redirectsRemaining := rd } cycRoot =
      (match handleSymlink
          { fullPath := ['a'], path := [], cutAt := 0, redirectsRemaining := rd }
          ['a'] ['/', 'a'] with
        | .error e => .error e
        | .ok r2 => resolveLoop cycLookup cycRoot true r2 cycRoot) := by
  have hperm : ¬(entryMode cycRoot &&& 0o444 = 0) := by decide
  have hsplit : splitOffNamePart ['a'] 0 = (['a'], [], 0) := by decide
  have hname : isEmptyName ['a'] = false := by decide
  simp only [cycRoot] at hperm ⊢
  rw [resolveLoop]
  simp only [hsplit, hname, hperm, cycLookup]
  split
  next h => exact absurd h (by decide)
  next h =>
    simp
    split <;>
      (rename_i hsym
       rw [hsplit] at hsym
       simp at hsym
       rw [hsym])

/-- On the cyclic image every redirect budget of at least one ends in
the invalid error: the symlink handler rewrites the path back to "a"
with one redirect fewer until the counter hits zero. -/
theorem cyc_resolveLoop_invalid (rd : Nat) (h : 1 ≤ rd) :
    resolveLoop cycLookup cycRoot true
        { fullPath := ['a'], path := ['a'], cutAt := 0, redirectsRemaining := rd } cycRoot =
      .error .errInvalid := by
  induction rd with
  | zero => omega
  | succ n ih =>
    rw [cyc_resolveLoop_step]
    by_cases hz : n = 0
    · subst hz
      simp [handleSymlink]
    · have hsym : handleSymlink
          { fullPath := ['a'], path := [], cutAt := 0, redirectsRemaining := n + 1 }
          ['a'] ['/', 'a'] =
          .ok { fullPath := ['a'], path := ['a'], cutAt := 0, redirectsRemaining := n } := by
        have hclean : (goClean ['/', 'a']).drop 1 = ['a'] := by decide
        simp [handleSymlink, hz, hclean]
      rw [hsym]
      exact ih (by omega)

/-- C7: path resolution cannot diverge — the walk is a terminating
total function whose symlink handler decrements a counter initialised
to `maximumRedirects = 1024` and fails with the invalid error when the
decrement reaches zero; on the concrete image whose entry "a" is a
symlink to "/a" (an unbounded chain), resolution with any positive
redirect budget, and in particular a full `Stat`-style resolve, returns
the invalid error. -/
theorem c7_resolution_terminates_invalid (rd : Nat) (h : 1 ≤ rd) :
    resolveLoop cycLookup cycRoot true
        { fullPath := ['a'], path := ['a'], cutAt := 0, redirectsRemaining := rd } cycRoot =
        .error .errInvalid ∧
      resolve cycLookup cycRoot ['a'] true = .error .errInvalid ∧
      maximumRedirects = 1024 := by
  refine ⟨cyc_resolveLoop_invalid rd h, ?_, rfl⟩
  unfold resolve
  have hvalid : goValidPath ['a'] = true := by decide
  rw [hvalid]
  simp only [maximumRedirects]
  exact cyc_resolveLoop_invalid 1024 (by omega)

/-- C7 witness: the theorem applied at the full 1024-redirect budget. -/
theorem c7_resolution_terminates_witness :
    resolve cycLookup cycRoot ['a'] true = .error .errInvalid :=
  (c7_resolution_terminates_invalid 1024 (by omega)).2.1

/-- The symlink mode bit of any non-symlink entry is clear: every other
type bit (31, 26, 25, 24, 21) differs from bit 27 and the uint16
permission bits lie below bit 16. -/
theorem entryMode_not_symlink (ent : Entry) (h : isSymlink ent = false) :
    entryMode ent &&& modeSymlink = 0 := by
  have hbit : ∀ x k : Nat, k ≠ 27 → x < 2 ^ 16 → (2 ^ k ||| x) &&& 2 ^ 27 = 0 := by
    intro x k hk hx
    rw [Nat.and_two_pow]
    have hb : (2 ^ k ||| x).testBit 27 = false := by
      rw [Nat.testBit_lor, Nat.testBit_two_pow_of_ne hk,
        Nat.testBit_eq_false_of_lt (lt_trans hx (by norm_num))]
      rfl
    rw [hb]
    rfl
  have hlow : ∀ x : Nat, x < 2 ^ 16 → x &&& 2 ^ 27 = 0 := by
    intro x hx
    rw [Nat.and_two_pow, Nat.testBit_eq_false_of_lt (lt_trans hx (by norm_num))]
    rfl
  have hmod : ∀ p : Nat, p % 2 ^ 16 < 2 ^ 16 := fun p => Nat.mod_lt _ (by norm_num)
  cases ent with
  | dirE p _ _ _ _ =>
    simpa [entryMode, modeDir, modeSymlink] using hbit (p % 2 ^ 16) 31 (by norm_num) (hmod p)
  | symlinkE p _ _ => simp [isSymlink] at h
  | fileE p _ => simpa [entryMode, modeSymlink] using hlow (p % 2 ^ 16) (hmod p)
  | blockE p _ =>
    simpa [entryMode, modeDevice, modeSymlink] using hbit (p % 2 ^ 16) 26 (by norm_num) (hmod p)
  | charE p _ =>
    simpa [entryMode, modeCharDevice, modeSymlink] using
      hbit (p % 2 ^ 16) 21 (by norm_num) (hmod p)
  | fifoE p _ =>
    simpa [entryMode, modeNamedPipe, modeSymlink] using
      hbit (p % 2 ^ 16) 25 (by norm_num) (hmod p)
  | sockE p _ =>
    simpa [entryMode, modeSocket, modeSymlink] using
      hbit (p % 2 ^ 16) 24 (by norm_num) (hmod p)

/-- The symlink mode bit of a symlink entry is set. -/
theorem entryMode_symlink (p : Nat) (n t : List Char) :
    entryMode (.symlinkE p n t) &&& modeSymlink ≠ 0 := by
  simp only [entryMode, modeSymlink]
  rw [Nat.and_two_pow]
  have hb : (2 ^ 27 ||| p % 2 ^ 16).testBit 27 = true := by
    rw [Nat.testBit_lor, Nat.testBit_two_pow_self]
    rfl
  rw [hb]
  norm_num

/-- With follow-last-symlink requested, the walk never returns a symlink
entry: every symlink encountered — the last component included — is
followed (or resolution fails), so a successful resolution starting from
a non-symlink root ends on a non-symlink entry. -/
theorem resolveLoop_followLast_no_symlink
    (lookup : List Char → Nat → Nat → Nat → Except GoErr Entry) (root : Entry)
    (hroot : isSymlink root = false) (r : Resolver) (curr : Entry) :
    isSymlink curr = false →
      ∀ e : Entry, resolveLoop lookup root true r curr = .ok e → isSymlink e = false := by
  refine resolveLoop.induct lookup root true
    (motive := fun r curr => isSymlink curr = false →
      ∀ e : Entry, resolveLoop lookup root true r curr = .ok e → isSymlink e = false)
    ?_ ?_ ?_ ?_ ?_ ?_ ?_ ?_ ?_ r curr
  · intro r curr hpath hcurr e hres
    rw [resolveLoop.eq_def] at hres
    rw [dif_pos hpath] at hres
    rw [← Except.ok.inj hres]
    exact hcurr
  · intro r curr hpath hperm hcurr e hres
    rw [resolveLoop.eq_def] at hres
    rw [dif_neg hpath, if_pos hperm] at hres
    exact absurd hres (by simp)
  · intro r hpath perms name bi bo fs s r1 hempty hperm ih hcurr e hres
    rw [resolveLoop.eq_def] at hres
    rw [dif_neg hpath, if_neg hperm] at hres
    unfold_let s r1 at hempty ih
    simp only [] at hres
    rw [if_pos hempty] at hres
    exact ih hcurr e hres
  · intro r hpath perms name bi bo fs s hempty e1 hlook hperm hcurr e hres
    rw [resolveLoop.eq_def] at hres
    rw [dif_neg hpath, if_neg hperm] at hres
    unfold_let s at hempty hlook
    simp only [] at hres
    rw [if_neg hempty, hlook] at hres
    exact absurd hres (by simp)
  · intro r hpath perms name bi bo fs s r1 hempty next hlook hdone hperm hcurr e hres
    exact absurd hdone.2 (by simp)
  · intro r hpath perms name bi bo fs s r1 hempty hdone sp sname starget e1 hsymErr hperm
      hlook hcurr e hres
    rw [resolveLoop.eq_def] at hres
    rw [dif_neg hpath, if_neg hperm] at hres
    unfold_let s r1 at hempty hlook hdone hsymErr
    simp only [] at hres
    have hdone2 : ¬((splitOffNamePart r.path r.cutAt).2.1 = [] ∧ true = false) := hdone
    rw [if_neg hempty, hlook] at hres
    simp only [] at hres
    rw [if_neg hdone2] at hres
    split at hres
    · exact absurd hres (by simp)
    · rename_i r2 heq
      rw [hsymErr] at heq
      exact absurd heq (by simp)
  · intro r hpath perms name bi bo fs s r1 hempty hdone sp sname starget r2 hsymOk hperm
      hlook ih hcurr e hres
    rw [resolveLoop.eq_def] at hres
    rw [dif_neg hpath, if_neg hperm] at hres
    unfold_let s r1 at hempty hlook hdone hsymOk
    simp only [] at hres
    have hdone2 : ¬((splitOffNamePart r.path r.cutAt).2.1 = [] ∧ true = false) := hdone
    rw [if_neg hempty, hlook] at hres
    simp only [] at hres
    rw [if_neg hdone2] at hres
    split at hres
    · rename_i e2 heq
      rw [hsymOk] at heq
      exact absurd heq (by simp)
    · rename_i r2' heq
      rw [hsymOk] at heq
      rw [← Except.ok.inj heq] at hres
      exact ih hroot e hres
  · intro r hpath perms name bi bo fs s r1 hempty next hlook hdone hns hperm ih hcurr e hres
    rw [resolveLoop.eq_def] at hres
    rw [dif_neg hpath, if_neg hperm] at hres
    unfold_let s r1 at hempty hlook hdone ih
    simp only [] at hres
    have hdone2 : ¬((splitOffNamePart r.path r.cutAt).2.1 = [] ∧ true = false) := hdone
    rw [if_neg hempty, hlook] at hres
    simp only [] at hres
    rw [if_neg hdone2] at hres
    cases next with
    | symlinkE p n t => exact absurd rfl (hns p n t)
    | dirE p n bi2 bo2 fs2 =>
      exact ih rfl e hres
    | fileE p n =>
      exact ih rfl e hres
    | blockE p n =>
      exact ih rfl e hres
    | charE p n =>
      exact ih rfl e hres
    | fifoE p n =>
      exact ih rfl e hres
    | sockE p n =>
      exact ih rfl e hres
  · intro r curr hpath hperm hnd hcurr e hres
    rw [resolveLoop.eq_def] at hres
    rw [dif_neg hpath, if_neg hperm] at hres
    cases curr with
    | dirE p n bi bo fs => exact absurd rfl (hnd p n bi bo fs)
    | symlinkE p n t => simp [isSymlink] at hcurr
    | fileE p n => exact absurd hres (by simp)
    | blockE p n => exact absurd hres (by simp)
    | charE p n => exact absurd hres (by simp)
    | fifoE p n => exact absurd hres (by simp)
    | sockE p n => exact absurd hres (by simp)

/-- C8: `Stat` and `LStat` differ exactly in the follow-last-symlink
flag passed to the shared resolver (`true` for Stat, `false` for LStat);
a successful `Stat` from a non-symlink root never returns an entry with
the symlink mode bit — the final symlink is followed transitively —
while an `LStat` that lands on a symlink returns the link itself, whose
mode has the symlink bit set. -/
theorem c8_stat_follows_lstat_does_not :
    (∀ (lookup : List Char → Nat → Nat → Nat → Except GoErr Entry) (root : Entry)
        (fpath : List Char),
      statFS lookup root fpath = resolve lookup root fpath true ∧
        lstatFS lookup root fpath = resolve lookup root fpath false) ∧
      (∀ (lookup : List Char → Nat → Nat → Nat → Except GoErr Entry) (root : Entry)
          (fpath : List Char) (e : Entry), isSymlink root = false →
        statFS lookup root fpath = .ok e → entryMode e &&& modeSymlink = 0) ∧
      (∀ (lookup : List Char → Nat → Nat → Nat → Except GoErr Entry) (root : Entry)
          (fpath : List Char) (e : Entry), lstatFS lookup root fpath = .ok e →
        isSymlink e = true → entryMode e &&& modeSymlink ≠ 0) := by
  refine ⟨fun lookup root fpath => ⟨rfl, rfl⟩, ?_, ?_⟩
  · intro lookup root fpath e hroot hres
    unfold statFS resolve at hres
    by_cases hv : goValidPath fpath = true
    · rw [if_neg (by simp [hv])] at hres
      exact entryMode_not_symlink e
        (resolveLoop_followLast_no_symlink lookup root hroot _ root hroot e hres)
    · rw [if_pos (by simpa using hv)] at hres
      exact absurd hres (by simp)
  · intro lookup root fpath e _ hsym
    cases e with
    | symlinkE p n t => exact entryMode_symlink p n t
    | dirE p n bi bo fs => simp [isSymlink] at hsym
    | fileE p n => simp [isSymlink] at hsym
    | blockE p n => simp [isSymlink] at hsym
    | charE p n => simp [isSymlink] at hsym
    | fifoE p n => simp [isSymlink] at hsym
    | sockE p n => simp [isSymlink] at hsym

/-- C8 witness: on the concrete image whose root holds the symlink "a",
`LStat "a"` returns the link itself and the theorem yields its mode bit
set, while `Stat "."` returns the root directory and the theorem yields
the bit clear. -/
theorem c8_stat_lstat_witness :
    entryMode (.symlinkE 0o777 ['a'] ['/', 'a']) &&& modeSymlink ≠ 0 ∧
      entryMode cycRoot &&& modeSymlink = 0 := by
  have hperm : ¬(entryMode (Entry.dirE 0o755 [] 0 0 3) &&& 0o444 = 0) := by decide
  have hsplit : splitOffNamePart ['a'] 0 = (['a'], [], 0) := by decide
  have hlstat : lstatFS cycLookup cycRoot ['a'] = .ok (.symlinkE 0o777 ['a'] ['/', 'a']) := by
    unfold lstatFS resolve
    rw [if_neg (by decide)]
    simp only [cycRoot]
    rw [resolveLoop.eq_def]
    simp [hsplit, hperm, cycLookup, isEmptyName]
  have hsplitDot : splitOffNamePart ['.'] 0 = (['.'], [], 0) := by decide
  have hstat : statFS cycLookup cycRoot ['.'] = .ok cycRoot := by
    unfold statFS resolve
    rw [if_neg (by decide)]
    simp only [cycRoot]
    rw [resolveLoop.eq_def]
    simp only [hsplitDot, hperm, isEmptyName]
    norm_num
    rw [resolveLoop.eq_def]
    simp
  constructor
  · exact c8_stat_follows_lstat_does_not.2.2 cycLookup cycRoot ['a'] _ hlstat rfl
  · exact c8_stat_follows_lstat_does_not.2.1 cycLookup cycRoot ['.'] _ (by decide) hstat

end Sqfs
